import Mathlib

/-!
The bao virtual machine: interpreter core.

A shallow embedding of `src/vm.c` (with the opcode table of `src/chunk.h` and the
function object of `src/object.h`), followed by theorems about single dispatch
steps and whole runs.

Conventions of the embedding.

* The global `vm` becomes an explicit `VM` record that every function receives
  and returns.  The two C streams written by the interpreter (`stdout`,
  `stderr`) are two further fields of that record.
* Pointers into an array become indices into a list: `frame->ip` is an index
  into `chunk.code`, `vm.stack_top` an index into `vm.stack`.
* The operand stack is the whole fixed-capacity array together with the cursor;
  popping moves the cursor and leaves the cell as it is, exactly like the C code.
* A C execution whose behaviour the language leaves undefined (reading outside an
  array, converting an out-of-range `double` to `int`, signed overflow, integer
  division by zero) is reported as `none` by the helpers and as
  `Outcome.undefined` by a dispatch step.
-/

namespace Bao

/-! ## Values -/

/-- A C `double`.  Finite values are represented by the rational number they
denote (every finite double is a rational); the negative zero, the two
infinities and NaN are separate constructors. -/
inductive Double
  | finite (q : ℚ)
  | negZero
  | inf (negative : Bool)
  | nan
  deriving DecidableEq

/-- A reference to a heap object (`Obj*`). -/
abbrev ObjRef := Nat

/-- Modelled from the spec: the tagged union `Value` of `value.h`, which is not
among the sources.  The spec gives it exactly four variants: `Nil`, `Bool`,
`Number` (a double) and `Object` (a reference). -/
inductive Value
  | nil
  | bool (b : Bool)
  | number (d : Double)
  | obj (ref : ObjRef)
  deriving DecidableEq

/-- Modelled from the spec: the macro `IS_NUMBER` of `value.h` (not among the
sources), the test for the `Number` variant. -/
def IS_NUMBER : Value → Bool
  | .number _ => true
  | _ => false

/-- Modelled from the spec: the macro `AS_NUMBER` of `value.h` (not among the
sources), the double carried by a `Number`; meaningful only on a `Number`. -/
def AS_NUMBER : Value → Option Double
  | .number d => some d
  | _ => none

/-- Smallest value of a C `int` (32 bits, two's complement). -/
def INT_MIN : Int := -2147483648

/-- Largest value of a C `int` (32 bits). -/
def INT_MAX : Int := 2147483647

/-- An integer result is defined only when it is representable in `int`. -/
def int_range (n : Int) : Option Int :=
  if INT_MIN ≤ n ∧ n ≤ INT_MAX then some n else none

/-- Conversion `double → int`, as performed by the initialisation
`int b = AS_NUMBER(..)`: the fractional part is discarded (truncation toward
zero); the conversion is undefined when the integral part does not fit, and for
infinities and NaN. -/
def double_to_int : Double → Option Int
  | .finite q => int_range (Int.tdiv q.num q.den)
  | .negZero => some 0
  | .inf _ => none
  | .nan => none

/-- Conversion `int → double`, as performed when an `int` is handed to
`NUMBER_VAL`; every 32-bit integer is exactly representable. -/
def int_to_double (n : Int) : Double := .finite n

/-- The `int` addition `a + b`. -/
def int_add (a b : Int) : Option Int := int_range (a + b)

/-- The `int` subtraction `a - b`. -/
def int_sub (a b : Int) : Option Int := int_range (a - b)

/-- The `int` multiplication `a * b`. -/
def int_mul (a b : Int) : Option Int := int_range (a * b)

/-- The `int` division `a / b`: undefined for a zero divisor, otherwise the
quotient truncated toward zero (undefined if it does not fit, `INT_MIN / -1`). -/
def int_div (a b : Int) : Option Int :=
  if b = 0 then none else int_range (Int.tdiv a b)

/-- Unary minus on a `double`. -/
def double_neg : Double → Double
  | .finite q => if q = 0 then .negZero else .finite (-q)
  | .negZero => .finite 0
  | .inf negative => .inf (!negative)
  | .nan => .nan

/-! ## Bytecode units, functions, frames -/

/-- The enumeration `OpCode` of `chunk.h`, in declaration order. -/
inductive OpCode
  | OP_CONSTANT
  | OP_NIL
  | OP_TRUE
  | OP_FALSE
  | OP_ADD
  | OP_SUBTRACT
  | OP_MULTIPLY
  | OP_DIVIDE
  | OP_EQUAL
  | OP_NOT_EQUAL
  | OP_LESS
  | OP_GREATER
  | OP_LESS_EQUAL
  | OP_GREATER_EQUAL
  | OP_NEGATE
  | OP_NOT
  | OP_POP
  | OP_PUSH_DOWN
  | OP_GET_VARIABLE
  | OP_PRINT
  | OP_JUMP
  | OP_JUMP_IF_FALSE
  | OP_JUMP_IF_FALSE_ELSE_POP
  | OP_JUMP_IF_TRUE_ELSE_POP
  | OP_RETURN
  deriving DecidableEq

/-- The numeric value of an enumerator (C numbers them from 0). -/
def OpCode.toByte : OpCode → Fin 256
  | .OP_CONSTANT => 0
  | .OP_NIL => 1
  | .OP_TRUE => 2
  | .OP_FALSE => 3
  | .OP_ADD => 4
  | .OP_SUBTRACT => 5
  | .OP_MULTIPLY => 6
  | .OP_DIVIDE => 7
  | .OP_EQUAL => 8
  | .OP_NOT_EQUAL => 9
  | .OP_LESS => 10
  | .OP_GREATER => 11
  | .OP_LESS_EQUAL => 12
  | .OP_GREATER_EQUAL => 13
  | .OP_NEGATE => 14
  | .OP_NOT => 15
  | .OP_POP => 16
  | .OP_PUSH_DOWN => 17
  | .OP_GET_VARIABLE => 18
  | .OP_PRINT => 19
  | .OP_JUMP => 20
  | .OP_JUMP_IF_FALSE => 21
  | .OP_JUMP_IF_FALSE_ELSE_POP => 22
  | .OP_JUMP_IF_TRUE_ELSE_POP => 23
  | .OP_RETURN => 24

/-- Which `case` label of the dispatch `switch` a byte selects; `none` for a
byte that matches no label. -/
def OpCode.ofByte (b : Fin 256) : Option OpCode :=
  match b.val with
  | 0 => some .OP_CONSTANT
  | 1 => some .OP_NIL
  | 2 => some .OP_TRUE
  | 3 => some .OP_FALSE
  | 4 => some .OP_ADD
  | 5 => some .OP_SUBTRACT
  | 6 => some .OP_MULTIPLY
  | 7 => some .OP_DIVIDE
  | 8 => some .OP_EQUAL
  | 9 => some .OP_NOT_EQUAL
  | 10 => some .OP_LESS
  | 11 => some .OP_GREATER
  | 12 => some .OP_LESS_EQUAL
  | 13 => some .OP_GREATER_EQUAL
  | 14 => some .OP_NEGATE
  | 15 => some .OP_NOT
  | 16 => some .OP_POP
  | 17 => some .OP_PUSH_DOWN
  | 18 => some .OP_GET_VARIABLE
  | 19 => some .OP_PRINT
  | 20 => some .OP_JUMP
  | 21 => some .OP_JUMP_IF_FALSE
  | 22 => some .OP_JUMP_IF_FALSE_ELSE_POP
  | 23 => some .OP_JUMP_IF_TRUE_ELSE_POP
  | 24 => some .OP_RETURN
  | _ => none

/-- The struct `Chunk` of `chunk.h`: `code` holds the `count` bytes written so
far, `lines` the line recorded for each of them, `constants` the constant
table. -/
structure Chunk where
  code : List (Fin 256)
  lines : List Int
  constants : List Value
  deriving DecidableEq

/-- The struct `ObjFunction` of `object.h`. -/
structure ObjFunction where
  arity : Int
  chunk : Chunk
  name : Option ObjRef
  deriving DecidableEq

/-- Modelled from the spec: the struct `CallFrame` of `vm.h`, which is not among
the sources.  The fields are the three that `interpret` assigns: the executing
function, the instruction pointer as an index into its code, and the base slot
as an index into the operand stack. -/
structure CallFrame where
  function : ObjFunction
  ip : Nat
  slots : Nat
  deriving DecidableEq

/-! ## Machine state -/

/-- Modelled from the spec: the struct `VM` of `vm.h`, which is not among the
sources.  The fields are the ones `vm.c` uses (frame array and count, stack
array and cursor, heap object list, interning table); two more fields hold the
text written so far to the output stream (`out`) and the error stream (`err`). -/
structure VM where
  frames : List CallFrame
  frame_count : Nat
  stack : List Value
  stack_top : Nat
  objects : List ObjRef
  strings : List ObjRef
  out : String
  err : String
  deriving DecidableEq

/-- Modelled from the spec: the enumeration `InterpretResult` of `vm.h` (not
among the sources), with the three results `vm.c` returns. -/
inductive InterpretResult
  | INTERPRET_OK
  | INTERPRET_COMPILE_ERROR
  | INTERPRET_RUNTIME_ERROR
  deriving DecidableEq

/-- What the compiler hands back: the function (`none` for `NULL`) with its
address, and the heap list, interning table and error stream as it leaves
them. -/
structure Compiled where
  function : Option (ObjRef × ObjFunction)
  objects : List ObjRef
  strings : List ObjRef
  err : String

/-- The functions `vm.c` calls but does not define; they are parameters of the
interpreter. -/
structure Host where
  /-- The function `values_equal` of `value.c`. -/
  values_equal : Value → Value → Bool
  /-- The text `print_value` writes for a value. -/
  print_value : Value → String
  /-- Modelled from the spec: `compile` of `compiler.c` is an external
  collaborator; it is given the source text, may allocate heap objects and
  intern strings, may report on the error stream, and yields a function or a
  failure. -/
  compile : String → List ObjRef → List ObjRef → String → Compiled

/-- The operand stack proper: the cells below the cursor, bottom first. -/
def live (vm : VM) : List Value := vm.stack.take vm.stack_top

/-- The function `reset_stack`. -/
def reset_stack (vm : VM) : VM :=
  { vm with stack_top := 0, frame_count := 0 }

/-- The function `runtime_error`, called with a format that has no conversion
specifications (both call sites): the message and a newline go to the error
stream, then the line recorded for the byte just before the instruction pointer
of the topmost frame, then the stack is reset. -/
def runtime_error (format : String) (vm : VM) : Option VM :=
  let vm := { vm with err := vm.err ++ format ++ "\n" }
  match vm.frame_count with
  | 0 => none
  | fc + 1 =>
    match vm.frames[fc]? with
    | none => none
    | some frame =>
      match frame.ip with
      | 0 => none
      | instruction + 1 =>
        match frame.function.chunk.lines[instruction]? with
        | none => none
        | some line =>
          some (reset_stack
            { vm with err := vm.err ++ "[line " ++ toString line ++ "] in script\n" })

/-- The function `init_vm`. -/
def init_vm (vm : VM) : VM :=
  { reset_stack vm with objects := [], strings := [] }

/-- The function `push`. -/
def push (value : Value) (vm : VM) : Option VM :=
  if vm.stack_top < vm.stack.length then
    some { vm with stack := vm.stack.set vm.stack_top value, stack_top := vm.stack_top + 1 }
  else none

/-- The function `pop`. -/
def pop (vm : VM) : Option (Value × VM) :=
  match vm.stack_top with
  | 0 => none
  | top + 1 =>
    match vm.stack[top]? with
    | none => none
    | some value => some (value, { vm with stack_top := top })

/-- The function `peek`. -/
def peek (distance : Nat) (vm : VM) : Option Value :=
  if distance < vm.stack_top then vm.stack[vm.stack_top - 1 - distance]? else none

/-- The function `is_falsey`:
`IS_NIL(value) || (IS_BOOL(value) && !AS_BOOL(value))`. -/
def is_falsey : Value → Bool
  | .nil => true
  | .bool b => !b
  | _ => false

/-! ## The dispatch loop -/

/-- The result of one trip round the `for (;;)` loop of `run`. -/
inductive Outcome
  /-- The `switch` was left by `break` (or no label matched). -/
  | next (vm : VM)
  /-- The function `run` returned. -/
  | done (result : InterpretResult) (vm : VM)
  /-- The step has no defined behaviour. -/
  | undefined
  deriving DecidableEq

/-- A sequence of helper calls that ends in `break`. -/
def Outcome.ofOption : Option VM → Outcome
  | some vm => .next vm
  | none => .undefined

/-- The two statements `runtime_error(format); return INTERPRET_RUNTIME_ERROR;`. -/
def fatal (format : String) (vm : VM) : Outcome :=
  match runtime_error format vm with
  | some vm => .done .INTERPRET_RUNTIME_ERROR vm
  | none => .undefined

/-- The macro `READ_BYTE`, for the frame at index `fi` of `vm.frames`. -/
def READ_BYTE (fi : Nat) (vm : VM) : Option (Fin 256 × VM) :=
  match vm.frames[fi]? with
  | none => none
  | some frame =>
    match frame.function.chunk.code[frame.ip]? with
    | none => none
    | some byte =>
      some (byte, { vm with frames := vm.frames.set fi { frame with ip := frame.ip + 1 } })

/-- The macro `READ_CONSTANT`. -/
def READ_CONSTANT (fi : Nat) (vm : VM) : Option (Value × VM) :=
  match READ_BYTE fi vm with
  | none => none
  | some (index, vm) =>
    match vm.frames[fi]? with
    | none => none
    | some frame =>
      match frame.function.chunk.constants[index.val]? with
      | none => none
      | some value => some (value, vm)

/-- The macro `READ_SHORT`: the pointer moves on by two, then the two bytes
behind it are combined, the first one shifted left by eight, and the result is
cast to `uint16_t`. -/
def READ_SHORT (fi : Nat) (vm : VM) : Option (Nat × VM) :=
  match vm.frames[fi]? with
  | none => none
  | some frame =>
    let ip := frame.ip + 2
    match frame.function.chunk.code[ip - 2]?, frame.function.chunk.code[ip - 1]? with
    | some hi, some lo =>
      some (((hi.val <<< 8) ||| lo.val) % 65536,
        { vm with frames := vm.frames.set fi { frame with ip := ip } })
    | _, _ => none

/-- The statement `frame->ip += offset`. -/
def jump (fi : Nat) (offset : Nat) (vm : VM) : Option VM :=
  match vm.frames[fi]? with
  | none => none
  | some frame =>
    some { vm with frames := vm.frames.set fi { frame with ip := frame.ip + offset } }

/-- The macro `BINARY_OP(value_type, op)`.  Both operands are inspected with
`peek` (the second only if the first is a number); then each is popped and
stored in an `int`, the operator is applied to the two `int`s, and the result
is wrapped by `value_type` and pushed. -/
def BINARY_OP {α : Type} (value_type : α → Value) (op : Int → Int → Option α)
    (vm : VM) : Outcome :=
  match peek 0 vm with
  | none => .undefined
  | some v0 =>
    if !IS_NUMBER v0 then fatal "Operands must be numbers." vm
    else
      match peek 1 vm with
      | none => .undefined
      | some v1 =>
        if !IS_NUMBER v1 then fatal "Operands must be numbers." vm
        else
          Outcome.ofOption do
            let (vb, vm) ← pop vm
            let b ← (AS_NUMBER vb).bind double_to_int
            let (va, vm) ← pop vm
            let a ← (AS_NUMBER va).bind double_to_int
            let r ← op a b
            push (value_type r) vm

/-- Modelled from the spec: the macro `NUMBER_VAL` of `value.h` (not among the
sources), here applied to an `int` `n`, which C first converts to `double`. -/
def NUMBER_VAL (n : Int) : Value := .number (int_to_double n)

/-- Modelled from the spec: the macro `BOOL_VAL` of `value.h` (not among the
sources). -/
def BOOL_VAL (b : Bool) : Value := .bool b

/-- One iteration of the `for (;;)` loop of `run`, with `frame` pointing at
`vm.frames[fi]`: an opcode byte is read and the matching `case` is executed. -/
def dispatch (x : Host) (fi : Nat) (vm : VM) : Outcome :=
  match READ_BYTE fi vm with
  | none => .undefined
  | some (instruction, vm) =>
    match OpCode.ofByte instruction with
    | none => .next vm
    | some .OP_CONSTANT =>
      Outcome.ofOption do
        let (value, vm) ← READ_CONSTANT fi vm
        push value vm
    | some .OP_NIL => Outcome.ofOption (push .nil vm)
    | some .OP_TRUE => Outcome.ofOption (push (BOOL_VAL true) vm)
    | some .OP_FALSE => Outcome.ofOption (push (BOOL_VAL false) vm)
    | some .OP_ADD => BINARY_OP NUMBER_VAL int_add vm
    | some .OP_SUBTRACT => BINARY_OP NUMBER_VAL int_sub vm
    | some .OP_MULTIPLY => BINARY_OP NUMBER_VAL int_mul vm
    | some .OP_DIVIDE => BINARY_OP NUMBER_VAL int_div vm
    | some .OP_EQUAL =>
      Outcome.ofOption do
        let (b, vm) ← pop vm
        let (a, vm) ← pop vm
        push (BOOL_VAL (x.values_equal a b)) vm
    | some .OP_NOT_EQUAL =>
      Outcome.ofOption do
        let (b, vm) ← pop vm
        let (a, vm) ← pop vm
        push (BOOL_VAL (!x.values_equal a b)) vm
    | some .OP_LESS => BINARY_OP BOOL_VAL (fun a b => some (decide (a < b))) vm
    | some .OP_GREATER => BINARY_OP BOOL_VAL (fun a b => some (decide (a > b))) vm
    | some .OP_LESS_EQUAL => BINARY_OP BOOL_VAL (fun a b => some (decide (a ≤ b))) vm
    | some .OP_GREATER_EQUAL => BINARY_OP BOOL_VAL (fun a b => some (decide (a ≥ b))) vm
    | some .OP_NOT =>
      Outcome.ofOption do
        let (value, vm) ← pop vm
        push (BOOL_VAL (is_falsey value)) vm
    | some .OP_NEGATE =>
      match peek 0 vm with
      | none => .undefined
      | some v0 =>
        if !IS_NUMBER v0 then fatal "Operand must be a number." vm
        else
          Outcome.ofOption do
            let (value, vm) ← pop vm
            let d ← AS_NUMBER value
            push (.number (double_neg d)) vm
    | some .OP_POP =>
      Outcome.ofOption do
        let (_, vm) ← pop vm
        some vm
    | some .OP_PUSH_DOWN =>
      Outcome.ofOption do
        let (a, vm) ← pop vm
        let (_, vm) ← pop vm
        push a vm
    | some .OP_GET_VARIABLE =>
      Outcome.ofOption do
        let (slot, vm) ← READ_BYTE fi vm
        let value ← vm.stack[slot.val]?
        push value vm
    | some .OP_PRINT =>
      Outcome.ofOption do
        let (value, vm) ← pop vm
        let vm := { vm with out := vm.out ++ x.print_value value }
        let vm := { vm with out := vm.out ++ "\n" }
        push .nil vm
    | some .OP_JUMP =>
      Outcome.ofOption do
        let (offset, vm) ← READ_SHORT fi vm
        jump fi offset vm
    | some .OP_JUMP_IF_FALSE =>
      Outcome.ofOption do
        let (offset, vm) ← READ_SHORT fi vm
        let (value, vm) ← pop vm
        if is_falsey value then jump fi offset vm else some vm
    | some .OP_JUMP_IF_FALSE_ELSE_POP =>
      Outcome.ofOption do
        let (offset, vm) ← READ_SHORT fi vm
        let top ← peek 0 vm
        if is_falsey top then jump fi offset vm
        else
          let (_, vm) ← pop vm
          some vm
    | some .OP_JUMP_IF_TRUE_ELSE_POP =>
      Outcome.ofOption do
        let (offset, vm) ← READ_SHORT fi vm
        let top ← peek 0 vm
        if is_falsey top then
          let (_, vm) ← pop vm
          some vm
        else jump fi offset vm
    | some .OP_RETURN => .done .INTERPRET_OK vm

/-- How a call of `run` ends within a given number of loop iterations. -/
inductive RunResult
  /-- The function returned this result and left the machine in this state. -/
  | returned (result : InterpretResult) (vm : VM)
  /-- An iteration had no defined behaviour. -/
  | undefined
  /-- The loop was still going after the allotted iterations. -/
  | running
  deriving DecidableEq

/-- The `for (;;)` loop of `run`, cut off after `fuel` iterations. -/
def run_loop (x : Host) (fi : Nat) : Nat → VM → RunResult
  | 0, _ => .running
  | fuel + 1, vm =>
    match dispatch x fi vm with
    | .next vm => run_loop x fi fuel vm
    | .done result vm => .returned result vm
    | .undefined => .undefined

/-- The function `run`: `frame` is set to `&vm.frames[vm.frame_count - 1]` once,
then the loop is entered. -/
def run (x : Host) (fuel : Nat) (vm : VM) : RunResult :=
  match vm.frame_count with
  | 0 => .undefined
  | fc + 1 => run_loop x fc fuel vm

/-- The state reached from `vm` by `n` iterations that all end in `break`. -/
def steps (x : Host) (fi : Nat) : Nat → VM → Option VM
  | 0, vm => some vm
  | n + 1, vm =>
    match dispatch x fi vm with
    | .next vm => steps x fi n vm
    | _ => none

/-- The function `interpret`. -/
def interpret (x : Host) (fuel : Nat) (source : String) (vm : VM) : RunResult :=
  let c := x.compile source vm.objects vm.strings vm.err
  let vm := { vm with objects := c.objects, strings := c.strings, err := c.err }
  match c.function with
  | none => .returned .INTERPRET_COMPILE_ERROR vm
  | some (ref, function) =>
    match push (.obj ref) vm with
    | none => .undefined
    | some vm =>
      if vm.frame_count < vm.frames.length then
        run x fuel
          { vm with
            frames := vm.frames.set vm.frame_count { function := function, ip := 0, slots := 0 },
            frame_count := vm.frame_count + 1 }
      else .undefined

/-! ## The integer reading of the binary opcodes -/

/-- Truncation toward zero of a rational number. -/
def trunc (q : ℚ) : Int := Int.tdiv q.num q.den

/-- The result of a binary opcode read as an operation on the truncated operands
`ta` and `tb`: sum, difference, product and truncating quotient as a `Number`,
comparisons as a `Bool`; `none` for the opcodes that are not binary. -/
def truncated_result (op : OpCode) (ta tb : Int) : Option Value :=
  match op with
  | .OP_ADD => some (.number (.finite ((ta + tb : Int) : ℚ)))
  | .OP_SUBTRACT => some (.number (.finite ((ta - tb : Int) : ℚ)))
  | .OP_MULTIPLY => some (.number (.finite ((ta * tb : Int) : ℚ)))
  | .OP_DIVIDE => some (.number (.finite ((Int.tdiv ta tb : Int) : ℚ)))
  | .OP_LESS => some (.bool (decide (ta < tb)))
  | .OP_GREATER => some (.bool (decide (ta > tb)))
  | .OP_LESS_EQUAL => some (.bool (decide (ta ≤ tb)))
  | .OP_GREATER_EQUAL => some (.bool (decide (ta ≥ tb)))
  | _ => none

/-- The `int` operation of a binary opcode is defined on `ta`, `tb`: the
arithmetic result is representable and a divisor is not zero. -/
def int_defined (op : OpCode) (ta tb : Int) : Prop :=
  match op with
  | .OP_ADD => INT_MIN ≤ ta + tb ∧ ta + tb ≤ INT_MAX
  | .OP_SUBTRACT => INT_MIN ≤ ta - tb ∧ ta - tb ≤ INT_MAX
  | .OP_MULTIPLY => INT_MIN ≤ ta * tb ∧ ta * tb ≤ INT_MAX
  | .OP_DIVIDE => tb ≠ 0 ∧ INT_MIN ≤ Int.tdiv ta tb ∧ Int.tdiv ta tb ≤ INT_MAX
  | _ => True

/-! ## Vocabulary of the theorems -/

/-- The parts of the machine that the dispatch loop only reads: the frame
count, the heap object list and the interning table. -/
def core (vm : VM) : Nat × List ObjRef × List ObjRef :=
  (vm.frame_count, vm.objects, vm.strings)

/-- A helper result `o`, computed from `vm`, has the same `core` as `vm`
whenever it is defined. -/
def Keeps (o : Option VM) (vm : VM) : Prop := ∀ r, o = some r → core r = core vm

/-- The machine a call of `run` returned with, if it returned. -/
def RunResult.machine : RunResult → Option VM
  | .returned _ vm => some vm
  | _ => none

/-- The result a call of `run` returned, if it returned. -/
def RunResult.result : RunResult → Option InterpretResult
  | .returned result _ => some result
  | _ => none

/-- Consecutive calls of `interpret`, each with its own fuel and source text,
all of which return `INTERPRET_OK`; `none` as soon as one does not. -/
def interpret_all (x : Host) : List (Nat × String) → VM → Option VM
  | [], vm => some vm
  | (fuel, source) :: calls, vm =>
    match interpret x fuel source vm with
    | .returned .INTERPRET_OK vm => interpret_all x calls vm
    | _ => none

/-- The machine in which `interpret` enters `run`: the compiler's heap list,
interning table and error stream, the function value pushed, and a new frame
for the function on top of the frame array. -/
def entry (c : Compiled) (ref : ObjRef) (function : ObjFunction) (vm : VM) : VM :=
  { vm with
    objects := c.objects
    strings := c.strings
    err := c.err
    stack := vm.stack.set vm.stack_top (.obj ref)
    stack_top := vm.stack_top + 1
    frames := vm.frames.set vm.frame_count { function := function, ip := 0, slots := 0 }
    frame_count := vm.frame_count + 1 }

/-- The net stack effect of an opcode, as the opcode table of the spec gives it;
`top_falsey` says whether the value on top of the stack is falsey. -/
def stack_effect (op : OpCode) (top_falsey : Bool) : Int :=
  match op with
  | .OP_CONSTANT | .OP_NIL | .OP_TRUE | .OP_FALSE | .OP_GET_VARIABLE => 1
  | .OP_ADD | .OP_SUBTRACT | .OP_MULTIPLY | .OP_DIVIDE | .OP_EQUAL | .OP_NOT_EQUAL
  | .OP_LESS | .OP_GREATER | .OP_LESS_EQUAL | .OP_GREATER_EQUAL | .OP_POP | .OP_PUSH_DOWN
  | .OP_JUMP_IF_FALSE => -1
  | .OP_NOT | .OP_NEGATE | .OP_PRINT | .OP_JUMP | .OP_RETURN => 0
  | .OP_JUMP_IF_FALSE_ELSE_POP => if top_falsey then 0 else -1
  | .OP_JUMP_IF_TRUE_ELSE_POP => if top_falsey then -1 else 0

/-- A helper result `o`, computed from `vm`, has its stack cursor `d` cells
above that of `vm` whenever it is defined. -/
def Shifts (d : Int) (o : Option VM) (vm : VM) : Prop :=
  ∀ r, o = some r → (r.stack_top : Int) = vm.stack_top + d

/-- The frame array `frames` with the instruction pointer of the frame at index
`fi` moved on by `n` (unchanged if there is no such frame). -/
def bump (fi n : Nat) (frames : List CallFrame) : List CallFrame :=
  match frames[fi]? with
  | some f => frames.set fi { f with ip := f.ip + n }
  | none => frames

/-- A helper result `o`, computed from `vm`, differs from `vm` in the frame array
at most by the instruction pointer of frame `fi` having moved on. -/
def Moves (fi : Nat) (o : Option VM) (vm : VM) : Prop :=
  ∀ r, o = some r → ∃ n, r.frames = bump fi n vm.frames

/-- The machines that come about from a machine just after `init_vm` by calls of
`interpret` that return (the machines in which a call can start). -/
inductive Reachable (x : Host) : VM → Prop
  | init (vm0 : VM) : Reachable x (init_vm vm0)
  | call (vm vm' : VM) (fuel : Nat) (source : String) (result : InterpretResult) :
      Reachable x vm → interpret x fuel source vm = .returned result vm' → Reachable x vm'

/-- Every frame in use is based at the bottom of the stack. -/
def based_at_zero (vm : VM) : Prop :=
  ∀ N f, N < vm.frame_count → vm.frames[N]? = some f → f.slots = 0

/-- The value `v` with the address of an object translated by `ρ`. -/
def rename (ρ : ObjRef → ObjRef) : Value → Value
  | .obj ref => .obj (ρ ref)
  | v => v

/-- The function `f` with the addresses in its constant table and of its name
translated by `ρ`; code and line table are the same. -/
def rename_function (ρ : ObjRef → ObjRef) (f : ObjFunction) : ObjFunction :=
  { f with
    chunk := { f.chunk with constants := f.chunk.constants.map (rename ρ) }
    name := f.name.map ρ }

/-- The frame `frame` with the addresses in its function translated by `ρ`. -/
def rename_frame (ρ : ObjRef → ObjRef) (frame : CallFrame) : CallFrame :=
  { frame with function := rename_function ρ frame.function }

/-- Two machines `A` and `F` in the same state of the same run, up to the
translation `ρ` of heap addresses: both have `fi + 1` frames in use, the frame
at index `fi` is the same, the stack has the same capacity and the same cursor,
the cells below the cursor hold the same values, and the same text has been
written to the output stream since the streams held `outA` and `outF`.  Nothing
is said about the cells at or above the cursor, the other frames, the heap list,
the interning table or the error stream. -/
structure Sim (ρ : ObjRef → ObjRef) (fi : Nat) (outA outF : String) (A F : VM) : Prop where
  count_A : A.frame_count = fi + 1
  count_F : F.frame_count = fi + 1
  frame : F.frames[fi]? = (A.frames[fi]?).map (rename_frame ρ)
  top : F.stack_top = A.stack_top
  cap : F.stack.length = A.stack.length
  cells : ∀ i : Nat, i < A.stack_top → F.stack[i]? = (A.stack[i]?).map (rename ρ)
  out : ∃ d, A.out = outA ++ d ∧ F.out = outF ++ d

/-- Two machines `A` and `F` left behind by the same run, up to the translation
`ρ` of heap addresses: same frame count, same cursor, same values below the
cursor, same text written to the output stream since the streams held `outA`
and `outF`. -/
structure SimEnd (ρ : ObjRef → ObjRef) (outA outF : String) (A F : VM) : Prop where
  count : F.frame_count = A.frame_count
  top : F.stack_top = A.stack_top
  cells : ∀ i : Nat, i < A.stack_top → F.stack[i]? = (A.stack[i]?).map (rename ρ)
  out : ∃ d, A.out = outA ++ d ∧ F.out = outF ++ d

/-- Two helper results are both undefined, or both defined with machines related
by `S`. -/
def OptSim (S : VM → VM → Prop) : Option VM → Option VM → Prop
  | some A, some F => S A F
  | none, none => True
  | _, _ => False

/-- Two helper results with a value are both undefined, or both defined with
values related by `V` and machines related by `S`. -/
def OptSimWith {α β : Type} (V : α → β → Prop) (S : VM → VM → Prop) :
    Option (α × VM) → Option (β × VM) → Prop
  | some (a, A), some (f, F) => V a f ∧ S A F
  | none, none => True
  | _, _ => False

/-- Two steps end the same way: both in `break` with machines related by `S`,
both by returning the same result with machines related by `E`, or both without
defined behaviour. -/
def OutSim (S E : VM → VM → Prop) : Outcome → Outcome → Prop
  | .next A, .next F => S A F
  | .done rA A, .done rF F => rA = rF ∧ E A F
  | .undefined, .undefined => True
  | _, _ => False

/-- Two runs end the same way: both return the same result with machines related
by `E`, both are without defined behaviour, or both are still going. -/
def RunSim (E : VM → VM → Prop) : RunResult → RunResult → Prop
  | .returned rA A, .returned rF F => rA = rF ∧ E A F
  | .undefined, .undefined => True
  | .running, .running => True
  | _, _ => False

/-- The instruction that frame `fi` of `vm` is about to execute is not a
`GET_VARIABLE` naming a cell at or above the stack cursor. -/
def reads_live (fi : Nat) (vm : VM) : Bool :=
  match vm.frames[fi]? with
  | none => true
  | some frame =>
    match frame.function.chunk.code[frame.ip]?, frame.function.chunk.code[frame.ip + 1]? with
    | some op, some slot =>
      !(decide (op = OpCode.OP_GET_VARIABLE.toByte)) || decide (slot.val < vm.stack_top)
    | _, _ => true

/-- No instruction executed by the first `fuel` iterations of the loop of `run`,
started in `vm`, is a `GET_VARIABLE` naming a cell at or above the stack
cursor. -/
def run_reads_live (x : Host) (fi : Nat) : Nat → VM → Bool
  | 0, _ => true
  | fuel + 1, vm =>
    reads_live fi vm &&
      match dispatch x fi vm with
      | .next vm => run_reads_live x fi fuel vm
      | _ => true

/-- The call `interpret(source)` on `vm`, cut off after `fuel` iterations,
executes no `GET_VARIABLE` naming a cell at or above the stack cursor. -/
def interpret_reads_live (x : Host) (fuel : Nat) (source : String) (vm : VM) : Bool :=
  match (x.compile source vm.objects vm.strings vm.err).function with
  | none => true
  | some (ref, function) =>
    run_reads_live x vm.frame_count fuel
      (entry (x.compile source vm.objects vm.strings vm.err) ref function vm)

/-! ## Sample machines

Concrete hosts and machines on which the theorems below are instantiated. -/

/-- A host whose `values_equal` is structural equality, whose `print_value`
writes a fixed text, and whose `compile` always fails. -/
def sample_host : Host :=
  { values_equal := fun a b => decide (a = b)
    print_value := fun _ => "<value>"
    compile := fun _ objects strings err => ⟨none, objects, strings, err⟩ }

/-- A top-level function with the given code, the byte at index `i` recorded
as coming from line `10 * (i + 1)`, and the given constant table. -/
def sample_function (code : List (Fin 256)) (constants : List Value) : ObjFunction :=
  { arity := 0
    chunk :=
      { code := code
        lines := (List.range code.length).map fun i => 10 * ((i : Int) + 1)
        constants := constants }
    name := none }

/-- A frame of `function` whose instruction pointer is `ip`, based at the bottom
of the stack. -/
def sample_frame (function : ObjFunction) (ip : Nat) : CallFrame :=
  { function := function, ip := ip, slots := 0 }

/-- A machine with one frame, about to execute the byte at index `ip` of
`function`, with the given operands on a stack that has two further cells. -/
def sample_vm (function : ObjFunction) (ip : Nat) (operands : List Value) : VM :=
  { frames := [sample_frame function ip]
    frame_count := 1
    stack := operands ++ [.nil, .nil]
    stack_top := operands.length
    objects := [3, 2, 1]
    strings := [2]
    out := ""
    err := "" }

/-- The program `NIL; NEGATE` (lines 10 and 20), about to start on an empty
stack. -/
def sample_negate_nil : VM :=
  sample_vm (sample_function [OpCode.OP_NIL.toByte, OpCode.OP_NEGATE.toByte] []) 0 []

/-- The machine that running `sample_negate_nil` leaves behind. -/
def sample_negate_nil_end : VM :=
  { sample_vm (sample_function [OpCode.OP_NIL.toByte, OpCode.OP_NEGATE.toByte] []) 2 [] with
    frame_count := 0
    err := "Operand must be a number.\n[line 20] in script\n" }

/-- A host whose compiler knows three programs: `"fault"` is
`CONSTANT 0; NIL; NEGATE` with the constant `Number(7)`, `"read"` is
`GET_VARIABLE 1; PRINT; RETURN`, and `"done"` is `RETURN`.  Every other text is
a compile error.  A compiled function is allocated at a new address, which is
put in front of the heap list.  The printer names the variant of a value. -/
def sample_compiler : Host :=
  { values_equal := fun a b => decide (a = b)
    print_value := fun v =>
      match v with
      | .nil => "nil"
      | .bool _ => "bool"
      | .number _ => "number"
      | .obj _ => "object"
    compile := fun source objects strings err =>
      if source = "fault" then
        ⟨some (objects.length + 1,
            sample_function [OpCode.OP_CONSTANT.toByte, 0, OpCode.OP_NIL.toByte,
              OpCode.OP_NEGATE.toByte] [.number (.finite 7)]),
          (objects.length + 1) :: objects, strings, err⟩
      else if source = "read" then
        ⟨some (objects.length + 1,
            sample_function [OpCode.OP_GET_VARIABLE.toByte, 1, OpCode.OP_PRINT.toByte,
              OpCode.OP_RETURN.toByte] []),
          (objects.length + 1) :: objects, strings, err⟩
      else if source = "done" then
        ⟨some (objects.length + 1, sample_function [OpCode.OP_RETURN.toByte] []),
          (objects.length + 1) :: objects, strings, err⟩
      else ⟨none, objects, strings, err ++ "compile error\n"⟩ }

/-- A machine just after `init_vm`, with room for four values and two frames;
every stack cell holds `Nil`. -/
def sample_fresh : VM :=
  init_vm
    { frames := [sample_frame (sample_function [] []) 0, sample_frame (sample_function [] []) 0]
      frame_count := 0
      stack := [.nil, .nil, .nil, .nil]
      stack_top := 0
      objects := []
      strings := []
      out := ""
      err := "" }

/-- The machine that interpreting `"done"` on `sample_fresh` returns. -/
def sample_done_end : VM :=
  { sample_fresh with
    frames := [sample_frame (sample_function [OpCode.OP_RETURN.toByte] []) 1,
               sample_frame (sample_function [] []) 0]
    frame_count := 1
    stack := [.obj 1, .nil, .nil, .nil]
    stack_top := 1
    objects := [1] }

/-- The machine that interpreting `"done"` twice on `sample_fresh` returns. -/
def sample_done_twice : VM :=
  { sample_fresh with
    frames := [sample_frame (sample_function [OpCode.OP_RETURN.toByte] []) 1,
               sample_frame (sample_function [OpCode.OP_RETURN.toByte] []) 1]
    frame_count := 2
    stack := [.obj 1, .obj 2, .nil, .nil]
    stack_top := 2
    objects := [2, 1] }

/-- A machine just after `init_vm`, with room for four values and two frames;
every stack cell holds `cell`. -/
def sample_fresh_of (cell : Value) : VM :=
  init_vm
    { frames := [sample_frame (sample_function [] []) 0, sample_frame (sample_function [] []) 0]
      frame_count := 0
      stack := [cell, cell, cell, cell]
      stack_top := 0
      objects := []
      strings := []
      out := ""
      err := "" }

/-- The program `CONSTANT 0; GET_VARIABLE 1` with the constant `Number(5)`. -/
def sample_variable_function : ObjFunction :=
  sample_function [OpCode.OP_CONSTANT.toByte, 0, OpCode.OP_GET_VARIABLE.toByte, 1]
    [.number (.finite 5)]

/-- What a compiler hands back that has allocated `sample_variable_function` at
address 1 of an empty heap. -/
def sample_variable_compiled : Compiled :=
  ⟨some (1, sample_variable_function), [1], [], ""⟩

/-- The machine one step after `interpret` has entered `run` with
`sample_variable_function` on `sample_fresh`: `CONSTANT 0` has put `Number(5)`
in slot 1, above the function value in slot 0. -/
def sample_variable_vm : VM :=
  { sample_fresh with
    frames := [sample_frame sample_variable_function 2, sample_frame (sample_function [] []) 0]
    frame_count := 1
    stack := [.obj 1, .number (.finite 5), .nil, .nil]
    stack_top := 2
    objects := [1] }

/-- A host like `sample_compiler` whose compiler knows one more program:
`"self"` is `GET_VARIABLE 0; PRINT; RETURN`, which prints the function value in
slot 0 of its frame. -/
def sample_variables : Host :=
  { sample_compiler with
    compile := fun source objects strings err =>
      if source = "self" then
        ⟨some (objects.length + 1,
            sample_function [OpCode.OP_GET_VARIABLE.toByte, 0, OpCode.OP_PRINT.toByte,
              OpCode.OP_RETURN.toByte] []),
          (objects.length + 1) :: objects, strings, err⟩
      else sample_compiler.compile source objects strings err }

/-- The machine that interpreting `"fault"` with `sample_variables` on
`sample_fresh` returns: cursor and frame count are reset; the cells written by
the run, the frame and the heap list keep their contents. -/
def sample_faulted : VM :=
  { sample_fresh with
    frames := [sample_frame (sample_function [OpCode.OP_CONSTANT.toByte, 0,
                 OpCode.OP_NIL.toByte, OpCode.OP_NEGATE.toByte] [.number (.finite 7)]) 4,
               sample_frame (sample_function [] []) 0]
    stack := [.obj 1, .number (.finite 7), .nil, .nil]
    objects := [1]
    err := "Operand must be a number.\n[line 40] in script\n" }

/-- The translation of addresses that exchanges 1 and 2: on `sample_faulted` the
next function is allocated at address 2, on a machine just after `init_vm` at
address 1. -/
def sample_translation (ref : Nat) : Nat :=
  if ref = 2 then 1 else if ref = 1 then 2 else ref

/-! ## Auxiliary lemmas -/

theorem ofByte_toByte (op : OpCode) : OpCode.ofByte op.toByte = some op := by
  cases op <;> rfl

theorem lt_length_of_getElem? {α : Type} {l : List α} {i : Nat} {a : α}
    (h : l[i]? = some a) : i < l.length := by
  by_contra hc
  simp [List.getElem?_eq_none (Nat.le_of_not_lt hc)] at h

theorem live_length (vm : VM) (hcap : vm.stack_top ≤ vm.stack.length) :
    (live vm).length = vm.stack_top := by
  simp [live, hcap]

theorem live_top (vm : VM) (rest : List Value) (v : Value)
    (hcap : vm.stack_top ≤ vm.stack.length) (h : live vm = rest ++ [v]) :
    vm.stack_top = rest.length + 1 ∧ vm.stack[rest.length]? = some v := by
  have hl := live_length vm hcap
  rw [h] at hl
  simp at hl
  refine ⟨hl.symm, ?_⟩
  have : (live vm)[rest.length]? = some v := by rw [h]; simp
  rw [live, List.getElem?_take] at this
  simpa [← hl] using this

theorem live_top2 (vm : VM) (rest : List Value) (a b : Value)
    (hcap : vm.stack_top ≤ vm.stack.length) (h : live vm = rest ++ [a, b]) :
    vm.stack_top = rest.length + 2 ∧ vm.stack[rest.length]? = some a ∧
      vm.stack[rest.length + 1]? = some b := by
  have hl := live_length vm hcap
  rw [h] at hl
  simp at hl
  refine ⟨hl.symm, ?_, ?_⟩
  · have : (live vm)[rest.length]? = some a := by
      rw [h, List.getElem?_append_right (le_refl _)]; simp
    rw [live, List.getElem?_take] at this
    simpa [← hl] using this
  · have : (live vm)[rest.length + 1]? = some b := by
      rw [h, List.getElem?_append_right (by omega)]; simp
    rw [live, List.getElem?_take] at this
    simpa [← hl] using this

theorem take_of_live (vm : VM) (rest tail : List Value) (h : live vm = rest ++ tail) :
    vm.stack.take rest.length = rest := by
  have h1 : (live vm).take rest.length = rest := by rw [h]; simp
  have h2 : rest.length ≤ vm.stack_top := by
    have := congrArg List.length h
    simp [live] at this
    omega
  rw [live, List.take_take] at h1
  simpa [h2] using h1

theorem take_set_succ (l : List Value) (n : Nat) (v : Value) (h : n < l.length) :
    (l.set n v).take (n + 1) = l.take n ++ [v] := by
  induction l generalizing n with
  | nil => simp at h
  | cons hd tl ih =>
    cases n with
    | zero => simp
    | succ k =>
      have hk : k < tl.length := by simpa using h
      simp [ih k hk]

theorem is_falsey_iff (v : Value) : is_falsey v = decide (v = .nil ∨ v = .bool false) := by
  cases v with
  | nil => simp [is_falsey]
  | bool b => cases b <;> simp [is_falsey]
  | number d => simp [is_falsey]
  | obj r => simp [is_falsey]

theorem short_value (hi lo : Fin 256) :
    ((hi.val <<< 8) ||| lo.val) % 65536 = 256 * hi.val + lo.val := by
  have hlo : lo.val < 2 ^ 8 := lo.isLt
  have hhi := hi.isLt
  rw [Nat.shiftLeft_eq, Nat.mul_comm, ← Nat.mul_add_lt_is_or hlo]
  norm_num
  omega

theorem double_to_int_three_halves : double_to_int (.finite (3 / 2)) = some 1 := by
  have h : Int.tdiv 3 2 = 1 := by decide
  norm_num [double_to_int, int_range, INT_MIN, INT_MAX, h]

theorem ofOption_ne_done (o : Option VM) (r : InterpretResult) (vm : VM) :
    Outcome.ofOption o ≠ .done r vm := by
  cases o <;> simp [Outcome.ofOption]

theorem fatal_eq_done (format : String) (vm vm' : VM) (r : InterpretResult) :
    fatal format vm = .done r vm' ↔
      r = .INTERPRET_RUNTIME_ERROR ∧ runtime_error format vm = some vm' := by
  unfold fatal
  cases h : runtime_error format vm with
  | none => simp
  | some w =>
    simp only [Outcome.done.injEq, Option.some.injEq]
    constructor
    · rintro ⟨h1, h2⟩
      exact ⟨h1.symm, h2⟩
    · rintro ⟨h1, h2⟩
      exact ⟨h1.symm, h2⟩

theorem runtime_error_eq (format : String) (vm : VM) (fi i : Nat) (frame : CallFrame)
    (line : Int) (hfc : vm.frame_count = fi + 1) (hframe : vm.frames[fi]? = some frame)
    (hip : frame.ip = i + 1) (hline : frame.function.chunk.lines[i]? = some line) :
    runtime_error format vm =
      some (reset_stack { vm with
        err := vm.err ++ format ++ "\n" ++ "[line " ++ toString line ++ "] in script\n" }) := by
  unfold runtime_error
  simp only [hfc, hframe, hip, hline]

theorem peek_one_none (vm : VM) (hcap : vm.stack_top ≤ vm.stack.length)
    (h : peek 0 vm = none) : peek 1 vm = none := by
  unfold peek at h ⊢
  by_cases h0 : 0 < vm.stack_top
  · rw [if_pos h0] at h
    have := List.getElem?_eq_none_iff.mp h
    omega
  · have : ¬ 1 < vm.stack_top := by omega
    rw [if_neg this]

theorem BINARY_OP_done_iff {α : Type} (value_type : α → Value) (op : Int → Int → Option α)
    (vm : VM) (hcap : vm.stack_top ≤ vm.stack.length)
    (hre : ∀ format, ∃ vm', runtime_error format vm = some vm') :
    (∃ vm', BINARY_OP value_type op vm = .done .INTERPRET_RUNTIME_ERROR vm') ↔
      ∃ v, (peek 0 vm = some v ∨ peek 1 vm = some v) ∧ IS_NUMBER v = false := by
  obtain ⟨w, hw⟩ := hre "Operands must be numbers."
  unfold BINARY_OP
  cases h0 : peek 0 vm with
  | none => simp [peek_one_none vm hcap h0]
  | some v0 =>
    cases hn0 : IS_NUMBER v0 with
    | false =>
      simp only [hn0, Bool.not_false, if_true, fatal_eq_done, true_and]
      exact ⟨fun _ => ⟨v0, Or.inl rfl, hn0⟩, fun _ => ⟨w, hw⟩⟩
    | true =>
      cases h1 : peek 1 vm with
      | none => simp [hn0]
      | some v1 =>
        cases hn1 : IS_NUMBER v1 with
        | false =>
          simp only [hn0, hn1, Bool.not_false, Bool.not_true, if_true, fatal_eq_done, true_and,
            Bool.false_eq_true, if_false]
          exact ⟨fun _ => ⟨v1, Or.inr rfl, hn1⟩, fun _ => ⟨w, hw⟩⟩
        | true =>
          simp only [hn0, hn1, Bool.not_true, Bool.false_eq_true, if_false]
          constructor
          · rintro ⟨vm', h⟩
            exact absurd h (ofOption_ne_done _ _ _)
          · rintro ⟨v, hv | hv, hnv⟩
            · cases Option.some.inj hv
              rw [hn0] at hnv
              cases hnv
            · cases Option.some.inj hv
              rw [hn1] at hnv
              cases hnv

theorem keeps_none (vm : VM) : Keeps none vm := by
  intro r h; cases h

theorem keeps_some (vm : VM) : Keeps (some vm) vm := by
  intro r h; cases h; rfl

theorem keeps_push (v : Value) (vm : VM) : Keeps (push v vm) vm := by
  intro r h
  unfold push at h
  split at h
  · cases h; rfl
  · cases h

theorem keeps_jump (fi offset : Nat) (vm : VM) : Keeps (jump fi offset vm) vm := by
  intro r h
  unfold jump at h
  split at h
  · cases h
  · cases h; rfl

theorem pop_core {vm r : VM} {v : Value} (h : pop vm = some (v, r)) : core r = core vm := by
  unfold pop at h
  split at h
  · cases h
  · split at h
    · cases h
    · cases h; rfl

theorem READ_BYTE_core {fi : Nat} {vm r : VM} {b : Fin 256} (h : READ_BYTE fi vm = some (b, r)) :
    core r = core vm := by
  unfold READ_BYTE at h
  split at h
  · cases h
  · split at h
    · cases h
    · cases h; rfl

theorem READ_SHORT_core {fi : Nat} {vm r : VM} {n : Nat} (h : READ_SHORT fi vm = some (n, r)) :
    core r = core vm := by
  unfold READ_SHORT at h
  split at h
  · cases h
  · simp only at h
    split at h
    · cases h; rfl
    · cases h

theorem READ_CONSTANT_core {fi : Nat} {vm r : VM} {v : Value}
    (h : READ_CONSTANT fi vm = some (v, r)) : core r = core vm := by
  unfold READ_CONSTANT at h
  split at h
  · cases h
  · rename_i index vm1 hread
    split at h
    · cases h
    · split at h
      · cases h
      · cases h; exact READ_BYTE_core hread

theorem keeps_bind_state {α : Type} {o : Option (α × VM)} {f : α × VM → Option VM} {vm : VM}
    (h1 : ∀ a r, o = some (a, r) → core r = core vm) (h2 : ∀ a r, Keeps (f (a, r)) r) :
    Keeps (o.bind f) vm := by
  intro r h
  cases ho : o with
  | none => rw [ho] at h; cases h
  | some p =>
    rw [ho] at h
    rw [h2 p.1 p.2 r h]
    exact h1 p.1 p.2 ho

theorem keeps_bind_pure {α : Type} {o : Option α} {f : α → Option VM} {vm : VM}
    (h2 : ∀ a, Keeps (f a) vm) : Keeps (o.bind f) vm := by
  intro r h
  cases ho : o with
  | none => rw [ho] at h; cases h
  | some a => rw [ho] at h; exact h2 a r h

theorem keeps_of_core {o : Option VM} {vm vm1 : VM} (h : Keeps o vm1) (hc : core vm1 = core vm) :
    Keeps o vm := by
  intro r hr
  rw [h r hr, hc]

theorem ofOption_next {o : Option VM} {vm : VM} (h : Outcome.ofOption o = .next vm) :
    o = some vm := by
  cases o with
  | none => cases h
  | some w => cases h; rfl

theorem BINARY_OP_next_core {α : Type} (value_type : α → Value) (op : Int → Int → Option α)
    (vm vm' : VM) (h : BINARY_OP value_type op vm = .next vm') : core vm' = core vm := by
  unfold BINARY_OP at h
  split at h
  · cases h
  · split at h
    · unfold fatal at h; split at h <;> cases h
    · split at h
      · cases h
      · split at h
        · unfold fatal at h; split at h <;> cases h
        · refine (?_ : Keeps _ vm) vm' (ofOption_next h)
          refine keeps_bind_state (fun _ _ => pop_core) (fun _ _ => ?_)
          refine keeps_bind_pure (fun _ => ?_)
          refine keeps_bind_state (fun _ _ => pop_core) (fun _ _ => ?_)
          refine keeps_bind_pure (fun _ => ?_)
          refine keeps_bind_pure (fun _ => ?_)
          exact keeps_push _ _

theorem dispatch_next_core (x : Host) (fi : Nat) (vm vm' : VM)
    (h : dispatch x fi vm = .next vm') : core vm' = core vm := by
  unfold dispatch at h
  split at h
  · cases h
  · rename_i instruction vm1 hread
    rw [← READ_BYTE_core hread]
    split at h
    · cases h; rfl
    all_goals first
      | exact BINARY_OP_next_core _ _ _ _ h
      | cases h
      | (refine (?_ : Keeps _ vm1) vm' (ofOption_next h)
         repeat' first
           | exact keeps_push _ _
           | exact keeps_some _
           | exact keeps_jump _ _ _
           | exact keeps_none _
           | exact keeps_of_core (keeps_push _ _) rfl
           | refine keeps_bind_state (fun _ _ => pop_core) (fun _ _ => ?_)
           | refine keeps_bind_state (fun _ _ => READ_BYTE_core) (fun _ _ => ?_)
           | refine keeps_bind_state (fun _ _ => READ_SHORT_core) (fun _ _ => ?_)
           | refine keeps_bind_state (fun _ _ => READ_CONSTANT_core) (fun _ _ => ?_)
           | refine keeps_bind_pure (fun _ => ?_)
           | dsimp only
           | split)
      | (split at h
         · cases h
         · split at h
           · unfold fatal at h
             split at h <;> cases h
           · refine (?_ : Keeps _ vm1) vm' (ofOption_next h)
             refine keeps_bind_state (fun _ _ => pop_core) (fun _ _ => ?_)
             refine keeps_bind_pure (fun _ => ?_)
             exact keeps_push _ _)

theorem steps_core (x : Host) (fi : Nat) (n : Nat) (vm t : VM)
    (h : steps x fi n vm = some t) : core t = core vm := by
  induction n generalizing vm with
  | zero => cases h; rfl
  | succ k ih =>
    unfold steps at h
    split at h
    · rename_i vm1 hd
      rw [ih vm1 h, dispatch_next_core x fi vm vm1 hd]
    · cases h

theorem run_loop_returned (x : Host) (fi : Nat) (fuel : Nat) (vm vm' : VM)
    (r : InterpretResult) (h : run_loop x fi fuel vm = .returned r vm') :
    ∃ n t, steps x fi n vm = some t ∧ dispatch x fi t = .done r vm' := by
  induction fuel generalizing vm with
  | zero => cases h
  | succ k ih =>
    unfold run_loop at h
    split at h
    · rename_i vm1 hd
      obtain ⟨n, t, hs, ht⟩ := ih vm1 h
      refine ⟨n + 1, t, ?_, ht⟩
      simp only [steps, hd]
      exact hs
    · rename_i r1 vm1 hd
      cases h
      exact ⟨0, vm, rfl, hd⟩
    · cases h

theorem BINARY_OP_done {α : Type} (value_type : α → Value) (op : Int → Int → Option α)
    (vm vm' : VM) (r : InterpretResult) (h : BINARY_OP value_type op vm = .done r vm') :
    r = .INTERPRET_RUNTIME_ERROR ∧
      runtime_error "Operands must be numbers." vm = some vm' := by
  unfold BINARY_OP at h
  split at h
  · cases h
  · split at h
    · exact (fatal_eq_done _ _ _ _).mp h
    · split at h
      · cases h
      · split at h
        · exact (fatal_eq_done _ _ _ _).mp h
        · exact absurd h (ofOption_ne_done _ _ _)

theorem READ_BYTE_some {fi : Nat} {vm r : VM} {b : Fin 256} (h : READ_BYTE fi vm = some (b, r)) :
    ∃ frame, vm.frames[fi]? = some frame ∧ frame.function.chunk.code[frame.ip]? = some b ∧
      r = { vm with frames := vm.frames.set fi { frame with ip := frame.ip + 1 } } := by
  unfold READ_BYTE at h
  split at h
  · cases h
  · rename_i frame hframe
    split at h
    · cases h
    · rename_i byte hbyte
      cases h
      exact ⟨frame, hframe, hbyte, rfl⟩

theorem dispatch_done_error (x : Host) (fi : Nat) (vm vm' : VM)
    (h : dispatch x fi vm = .done .INTERPRET_RUNTIME_ERROR vm') :
    ∃ frame byte format, vm.frames[fi]? = some frame ∧
      frame.function.chunk.code[frame.ip]? = some byte ∧
      runtime_error format
        { vm with frames := vm.frames.set fi { frame with ip := frame.ip + 1 } } = some vm' := by
  unfold dispatch at h
  split at h
  · cases h
  · rename_i instruction vm1 hread
    obtain ⟨frame, hframe, hbyte, rfl⟩ := READ_BYTE_some hread
    refine ⟨frame, instruction, ?_⟩
    split at h
    · cases h
    all_goals first
      | exact absurd h (ofOption_ne_done _ _ _)
      | exact ⟨_, hframe, hbyte, (BINARY_OP_done _ _ _ _ _ h).2⟩
      | cases h
      | (split at h
         · cases h
         · split at h
           · exact ⟨_, hframe, hbyte, ((fatal_eq_done _ _ _ _).mp h).2⟩
           · exact absurd h (ofOption_ne_done _ _ _))

theorem runtime_error_some (format : String) (vm vm' : VM)
    (h : runtime_error format vm = some vm') :
    ∃ fc frame i line, vm.frame_count = fc + 1 ∧ vm.frames[fc]? = some frame ∧
      frame.ip = i + 1 ∧ frame.function.chunk.lines[i]? = some line ∧
      vm' = reset_stack { vm with
        err := vm.err ++ format ++ "\n" ++ "[line " ++ toString line ++ "] in script\n" } := by
  unfold runtime_error at h
  simp only at h
  split at h
  · cases h
  · rename_i fc hfc
    split at h
    · cases h
    · rename_i frame hframe
      split at h
      · cases h
      · rename_i i hi
        split at h
        · cases h
        · rename_i line hline
          cases h
          exact ⟨fc, frame, i, line, hfc, hframe, hi, hline, rfl⟩

theorem trunc_intCast (m : Int) : trunc (m : ℚ) = m := by
  simp [trunc]

theorem trunc_eq_floor_ceil (q : ℚ) : trunc q = if 0 ≤ q then ⌊q⌋ else ⌈q⌉ := by
  unfold trunc
  split
  · rename_i h
    have hn : 0 ≤ q.num := Rat.num_nonneg.mpr h
    rw [Rat.floor_def, Int.tdiv_eq_ediv hn (Int.natCast_nonneg _)]
  · rename_i h
    have hn : 0 ≤ -q.num := by
      have : q.num < 0 := Rat.num_neg.mpr (not_le.mp h)
      omega
    have h1 : ⌈q⌉ = -⌊-q⌋ := by rw [Int.floor_neg, neg_neg]
    rw [h1, Rat.floor_def, Rat.num_neg_eq_neg_num, Rat.den_neg_eq_den,
      ← Int.tdiv_eq_ediv hn (Int.natCast_nonneg _), Int.neg_tdiv, neg_neg]

theorem double_to_int_finite (q : ℚ) (h : INT_MIN ≤ trunc q ∧ trunc q ≤ INT_MAX) :
    double_to_int (.finite q) = some (trunc q) := by
  unfold double_to_int int_range
  exact if_pos h

theorem read_byte_eq (fi : Nat) (vm : VM) (frame : CallFrame) (byte : Fin 256)
    (hframe : vm.frames[fi]? = some frame)
    (hop : frame.function.chunk.code[frame.ip]? = some byte) :
    READ_BYTE fi vm =
      some (byte, { vm with frames := vm.frames.set fi { frame with ip := frame.ip + 1 } }) := by
  simp [READ_BYTE, hframe, hop]

theorem BINARY_OP_eq {α : Type} (value_type : α → Value) (op : Int → Int → Option α)
    (vm : VM) (rest : List Value) (da db : Double) (ia ib : Int) (r : α)
    (hcap : vm.stack_top ≤ vm.stack.length)
    (hstack : live vm = rest ++ [.number da, .number db])
    (ha : double_to_int da = some ia) (hb : double_to_int db = some ib)
    (hr : op ia ib = some r) :
    ∃ vm', BINARY_OP value_type op vm = .next vm' ∧ live vm' = rest ++ [value_type r] ∧
      vm'.frames = vm.frames ∧ vm'.stack_top + 1 = vm.stack_top := by
  obtain ⟨htop, hva, hvb⟩ := live_top2 vm rest _ _ hcap hstack
  have hpre := take_of_live vm rest _ hstack
  have hlen := lt_length_of_getElem? hva
  obtain ⟨frames, fc, stack, top, objs, strs, out, err⟩ := vm
  simp only at htop hva hvb hpre hcap hlen
  subst htop
  simp [BINARY_OP, peek, pop, push, hva, hvb, IS_NUMBER, AS_NUMBER, ha, hb, hr, Outcome.ofOption,
    live, hlen, take_set_succ, hpre]

theorem double_to_int_six_fifths : double_to_int (.finite (6 / 5)) = some 1 := by
  have h : Int.tdiv 6 5 = 1 := by decide
  norm_num [double_to_int, int_range, INT_MIN, INT_MAX, h]

theorem double_to_int_five_quarters : double_to_int (.finite (5 / 4)) = some 1 := by
  have h : Int.tdiv 5 4 = 1 := by decide
  norm_num [double_to_int, int_range, INT_MIN, INT_MAX, h]

/-! ## Single instructions -/

/-- C1: the arithmetic opcodes store both operands in an `int` before applying
the operator.  `ADD` on `Number(1.5)`, `Number(1.5)` pushes `Number(2)` although
`1.5 + 1.5` is `3`, and `DIVIDE` on `Number(7)`, `Number(2)` pushes `Number(3)`
although `7 / 2` is `3.5`. -/
theorem arithmetic_truncates_to_int :
    (∃ vm', dispatch sample_host 0
        (sample_vm (sample_function [OpCode.OP_ADD.toByte] []) 0
          [.number (.finite (3 / 2)), .number (.finite (3 / 2))]) = .next vm' ∧
      live vm' = [.number (.finite 2)] ∧ (2 : ℚ) ≠ 3 / 2 + 3 / 2) ∧
    (∃ vm', dispatch sample_host 0
        (sample_vm (sample_function [OpCode.OP_DIVIDE.toByte] []) 0
          [.number (.finite 7), .number (.finite 2)]) = .next vm' ∧
      live vm' = [.number (.finite 3)] ∧ (3 : ℚ) ≠ 7 / 2) := by
  have h7 : Int.tdiv 7 2 = 3 := by decide
  have h2 : Int.tdiv 2 1 = 2 := by decide
  have h71 : Int.tdiv 7 1 = 7 := by decide
  constructor
  · simp [dispatch, sample_vm, sample_frame, sample_function, READ_BYTE, OpCode.toByte,
      OpCode.ofByte, BINARY_OP, peek, IS_NUMBER, pop, AS_NUMBER, double_to_int_three_halves,
      Outcome.ofOption, push, int_add, int_range, NUMBER_VAL, int_to_double, INT_MIN, INT_MAX,
      live]
  · simp [dispatch, sample_vm, sample_frame, sample_function, READ_BYTE, OpCode.toByte,
      OpCode.ofByte, BINARY_OP, peek, IS_NUMBER, pop, AS_NUMBER, double_to_int,
      Outcome.ofOption, push, int_div, int_range, NUMBER_VAL, int_to_double, INT_MIN, INT_MAX,
      live, h7, h2, h71]
    norm_num

/-- C2: with a zero on top of the stack (either zero of the `double` type), a
step at a `DIVIDE` opcode has no defined behaviour, whatever number lies
beneath: the operands are divided as `int`s and the divisor is the `int` zero.
No value is pushed and the loop does not continue. -/
theorem DIVIDE_by_zero_undefined (a : Double) :
    dispatch sample_host 0
        (sample_vm (sample_function [OpCode.OP_DIVIDE.toByte] []) 0
          [.number a, .number (.finite 0)]) = .undefined ∧
    dispatch sample_host 0
        (sample_vm (sample_function [OpCode.OP_DIVIDE.toByte] []) 0
          [.number a, .number .negZero]) = .undefined := by
  constructor <;>
  · simp [dispatch, sample_vm, sample_frame, sample_function, READ_BYTE, OpCode.toByte,
      OpCode.ofByte, BINARY_OP, peek, IS_NUMBER, pop, AS_NUMBER, double_to_int,
      Outcome.ofOption, push, int_div, int_range, NUMBER_VAL, int_to_double, INT_MIN, INT_MAX]

/-- C6: with `v` on top of the stack, one step at a `NOT` opcode replaces `v` by
`Bool(true)` when `v` is `Nil` or `Bool(false)` and by `Bool(false)` for every
other value; the cells below are unchanged, and the instruction pointer moves
on by one. -/
theorem NOT_replaces_top (x : Host) (fi : Nat) (vm : VM) (frame : CallFrame)
    (rest : List Value) (v : Value)
    (hframe : vm.frames[fi]? = some frame)
    (hop : frame.function.chunk.code[frame.ip]? = some OpCode.OP_NOT.toByte)
    (hcap : vm.stack_top ≤ vm.stack.length)
    (hstack : live vm = rest ++ [v]) :
    ∃ vm', dispatch x fi vm = .next vm' ∧
      live vm' = rest ++ [.bool (decide (v = .nil ∨ v = .bool false))] ∧
      vm'.frames[fi]? = some { frame with ip := frame.ip + 1 } := by
  obtain ⟨htop, hv⟩ := live_top vm rest v hcap hstack
  have hpre := take_of_live vm rest [v] hstack
  have hlt := lt_length_of_getElem? hframe
  have hlen := lt_length_of_getElem? hv
  obtain ⟨frames, fc, stack, top, objs, strs, out, err⟩ := vm
  simp only at htop hv hpre hframe hcap hlt hlen
  subst htop
  simp [dispatch, READ_BYTE, hframe, hop, ofByte_toByte, Outcome.ofOption, pop, push, hv,
    live, hlen, take_set_succ, hpre, hlt, BOOL_VAL, is_falsey_iff]

/-- C6 instantiated: `NOT` on `Number(0)` above `Bool(true)`. -/
theorem NOT_replaces_top_witness :
    ∃ vm', dispatch sample_host 0
        (sample_vm (sample_function [OpCode.OP_NOT.toByte] []) 0
          [.bool true, .number (.finite 0)]) = .next vm' ∧
      live vm' = [.bool true] ++
        [.bool (decide (Value.number (.finite 0) = .nil ∨
          Value.number (.finite 0) = .bool false))] ∧
      vm'.frames[0]? = some (sample_frame (sample_function [OpCode.OP_NOT.toByte] []) (0 + 1)) :=
  NOT_replaces_top sample_host 0
    (sample_vm (sample_function [OpCode.OP_NOT.toByte] []) 0 [.bool true, .number (.finite 0)])
    (sample_frame (sample_function [OpCode.OP_NOT.toByte] []) 0)
    [.bool true] (.number (.finite 0)) (by rfl) (by decide) (by decide) (by rfl)

/-- C9: on a stack `rest ++ [a, b]` (with `b` on top) one step at a `PUSH_DOWN`
opcode leaves the stack `rest ++ [b]`. -/
theorem PUSH_DOWN_keeps_top (x : Host) (fi : Nat) (vm : VM) (frame : CallFrame)
    (rest : List Value) (a b : Value)
    (hframe : vm.frames[fi]? = some frame)
    (hop : frame.function.chunk.code[frame.ip]? = some OpCode.OP_PUSH_DOWN.toByte)
    (hcap : vm.stack_top ≤ vm.stack.length)
    (hstack : live vm = rest ++ [a, b]) :
    ∃ vm', dispatch x fi vm = .next vm' ∧ live vm' = rest ++ [b] ∧
      vm'.frames[fi]? = some { frame with ip := frame.ip + 1 } := by
  obtain ⟨htop, ha, hb⟩ := live_top2 vm rest a b hcap hstack
  have hpre := take_of_live vm rest [a, b] hstack
  have hlt := lt_length_of_getElem? hframe
  have hlen := lt_length_of_getElem? ha
  obtain ⟨frames, fc, stack, top, objs, strs, out, err⟩ := vm
  simp only at htop ha hb hpre hframe hcap hlt hlen
  subst htop
  simp [dispatch, READ_BYTE, hframe, hop, ofByte_toByte, Outcome.ofOption, pop, push, ha, hb,
    live, hlen, take_set_succ, hpre, hlt]

/-- C9 instantiated: `PUSH_DOWN` on the stack `[Nil, Number(1), Bool(true)]`. -/
theorem PUSH_DOWN_keeps_top_witness :
    ∃ vm', dispatch sample_host 0
        (sample_vm (sample_function [OpCode.OP_PUSH_DOWN.toByte] []) 0
          [.nil, .number (.finite 1), .bool true]) = .next vm' ∧
      live vm' = [.nil] ++ [.bool true] ∧
      vm'.frames[0]? =
        some (sample_frame (sample_function [OpCode.OP_PUSH_DOWN.toByte] []) (0 + 1)) :=
  PUSH_DOWN_keeps_top sample_host 0
    (sample_vm (sample_function [OpCode.OP_PUSH_DOWN.toByte] []) 0
      [.nil, .number (.finite 1), .bool true])
    (sample_frame (sample_function [OpCode.OP_PUSH_DOWN.toByte] []) 0)
    [.nil] (.number (.finite 1)) (.bool true) (by rfl) (by decide) (by decide) (by rfl)

/-- C10: a step at a `JUMP` opcode at index `i` whose operand bytes are `hi` (at
`i + 1`) and `lo` (at `i + 2`) sets the instruction pointer to
`i + 3 + (256 * hi + lo)`; the offset is at most 65535, the new pointer is at
least `i + 3`, and the stack and its cursor are unchanged. -/
theorem JUMP_adds_offset (x : Host) (fi : Nat) (vm : VM) (frame : CallFrame)
    (hi lo : Fin 256)
    (hframe : vm.frames[fi]? = some frame)
    (hop : frame.function.chunk.code[frame.ip]? = some OpCode.OP_JUMP.toByte)
    (hhi : frame.function.chunk.code[frame.ip + 1]? = some hi)
    (hlo : frame.function.chunk.code[frame.ip + 2]? = some lo) :
    ∃ vm', dispatch x fi vm = .next vm' ∧
      vm'.frames[fi]? = some { frame with ip := frame.ip + 3 + (256 * hi.val + lo.val) } ∧
      256 * hi.val + lo.val ≤ 65535 ∧
      frame.ip + 3 ≤ frame.ip + 3 + (256 * hi.val + lo.val) ∧
      vm'.stack = vm.stack ∧ vm'.stack_top = vm.stack_top := by
  have hlt := lt_length_of_getElem? hframe
  have h1 := hi.isLt
  have h2 := lo.isLt
  obtain ⟨frames, fc, stack, top, objs, strs, out, err⟩ := vm
  simp only at hframe hlt
  simp [dispatch, READ_BYTE, hframe, hop, ofByte_toByte, Outcome.ofOption, READ_SHORT, jump,
    hlt, hhi, hlo, short_value]
  omega

/-- C10 instantiated: a `JUMP` with operand bytes `1`, `2` jumps by 258. -/
theorem JUMP_adds_offset_witness :
    ∃ vm', dispatch sample_host 0
        (sample_vm (sample_function [OpCode.OP_JUMP.toByte, 1, 2] []) 0 []) = .next vm' ∧
      vm'.frames[0]? = some (sample_frame (sample_function [OpCode.OP_JUMP.toByte, 1, 2] [])
        (0 + 3 + (256 * (1 : Fin 256).val + (2 : Fin 256).val))) ∧
      256 * (1 : Fin 256).val + (2 : Fin 256).val ≤ 65535 ∧
      0 + 3 ≤ 0 + 3 + (256 * (1 : Fin 256).val + (2 : Fin 256).val) ∧
      vm'.stack = [.nil, .nil] ∧ vm'.stack_top = 0 :=
  JUMP_adds_offset sample_host 0
    (sample_vm (sample_function [OpCode.OP_JUMP.toByte, 1, 2] []) 0 [])
    (sample_frame (sample_function [OpCode.OP_JUMP.toByte, 1, 2] []) 0)
    1 2 (by rfl) (by decide) (by decide) (by decide)

/-- C7: a step at a `JUMP_IF_FALSE_ELSE_POP` opcode at index `i` with operand
bytes `hi`, `lo` and `v` on top of the stack.  If `v` is `Nil` or `Bool(false)`
the stack array and its cursor are unchanged (`v` stays on top) and the
instruction pointer becomes `i + 3 + (256 * hi + lo)`; otherwise `v` is popped,
the cells below are unchanged, and the instruction pointer becomes `i + 3`. -/
theorem JUMP_IF_FALSE_ELSE_POP_step (x : Host) (fi : Nat) (vm : VM) (frame : CallFrame)
    (hi lo : Fin 256) (rest : List Value) (v : Value)
    (hframe : vm.frames[fi]? = some frame)
    (hop : frame.function.chunk.code[frame.ip]? = some OpCode.OP_JUMP_IF_FALSE_ELSE_POP.toByte)
    (hhi : frame.function.chunk.code[frame.ip + 1]? = some hi)
    (hlo : frame.function.chunk.code[frame.ip + 2]? = some lo)
    (hcap : vm.stack_top ≤ vm.stack.length)
    (hstack : live vm = rest ++ [v]) :
    ∃ vm', dispatch x fi vm = .next vm' ∧
      ((v = .nil ∨ v = .bool false) →
        vm'.stack = vm.stack ∧ vm'.stack_top = vm.stack_top ∧ live vm' = rest ++ [v] ∧
        vm'.frames[fi]? = some { frame with ip := frame.ip + 3 + (256 * hi.val + lo.val) }) ∧
      (¬ (v = .nil ∨ v = .bool false) →
        live vm' = rest ∧ vm'.frames[fi]? = some { frame with ip := frame.ip + 3 }) := by
  obtain ⟨htop, hv⟩ := live_top vm rest v hcap hstack
  have hpre := take_of_live vm rest [v] hstack
  have hlt := lt_length_of_getElem? hframe
  have hlen := lt_length_of_getElem? hv
  obtain ⟨frames, fc, stack, top, objs, strs, out, err⟩ := vm
  simp only at htop hv hpre hframe hcap hlt hlen hstack
  subst htop
  have hlive : List.take (rest.length + 1) stack = rest ++ [v] := by simpa [live] using hstack
  have hip : frame.ip + 1 + 2 + (256 * hi.val + lo.val) =
      frame.ip + 3 + (256 * hi.val + lo.val) := by
    omega
  by_cases hv0 : v = .nil ∨ v = .bool false
  · have hf : is_falsey v = true := by rw [is_falsey_iff]; simpa using hv0
    simp [dispatch, READ_BYTE, hframe, hop, ofByte_toByte, Outcome.ofOption, READ_SHORT, jump,
      hlt, hhi, hlo, short_value, peek, pop, hv, hf, hv0, live, hpre, hlive, hip]
  · have hf : is_falsey v = false := by rw [is_falsey_iff]; simpa using hv0
    simp [dispatch, READ_BYTE, hframe, hop, ofByte_toByte, Outcome.ofOption, READ_SHORT, jump,
      hlt, hhi, hlo, short_value, peek, pop, hv, hf, hv0, live, hpre, hlive, hip]

/-- C7 instantiated: `Bool(false)` on top, operand 5: the jump is taken and
the operand stays. -/
theorem JUMP_IF_FALSE_ELSE_POP_step_witness :
    ∃ vm', dispatch sample_host 0
        (sample_vm (sample_function [OpCode.OP_JUMP_IF_FALSE_ELSE_POP.toByte, 0, 5] []) 0
          [.number (.finite 4), .bool false]) = .next vm' ∧
      (((Value.bool false) = .nil ∨ (Value.bool false) = .bool false) →
        vm'.stack = [.number (.finite 4), .bool false, .nil, .nil] ∧ vm'.stack_top = 2 ∧
        live vm' = [.number (.finite 4)] ++ [.bool false] ∧
        vm'.frames[0]? = some (sample_frame
          (sample_function [OpCode.OP_JUMP_IF_FALSE_ELSE_POP.toByte, 0, 5] [])
          (0 + 3 + (256 * (0 : Fin 256).val + (5 : Fin 256).val)))) ∧
      (¬ ((Value.bool false) = .nil ∨ (Value.bool false) = .bool false) →
        live vm' = [.number (.finite 4)] ∧
        vm'.frames[0]? = some (sample_frame
          (sample_function [OpCode.OP_JUMP_IF_FALSE_ELSE_POP.toByte, 0, 5] []) (0 + 3))) :=
  JUMP_IF_FALSE_ELSE_POP_step sample_host 0
    (sample_vm (sample_function [OpCode.OP_JUMP_IF_FALSE_ELSE_POP.toByte, 0, 5] []) 0
      [.number (.finite 4), .bool false])
    (sample_frame (sample_function [OpCode.OP_JUMP_IF_FALSE_ELSE_POP.toByte, 0, 5] []) 0)
    0 5 [.number (.finite 4)] (.bool false) (by rfl) (by decide) (by decide) (by decide)
    (by decide) (by rfl)

/-- C8: a step at a `JUMP_IF_TRUE_ELSE_POP` opcode at index `i` with operand
bytes `hi`, `lo` and `v` on top of the stack.  If `v` is neither `Nil` nor
`Bool(false)` the stack array and its cursor are unchanged (`v` stays on top) and
the instruction pointer becomes `i + 3 + (256 * hi + lo)`; otherwise `v` is
popped, the cells below are unchanged, and the instruction pointer becomes
`i + 3`. -/
theorem JUMP_IF_TRUE_ELSE_POP_step (x : Host) (fi : Nat) (vm : VM) (frame : CallFrame)
    (hi lo : Fin 256) (rest : List Value) (v : Value)
    (hframe : vm.frames[fi]? = some frame)
    (hop : frame.function.chunk.code[frame.ip]? = some OpCode.OP_JUMP_IF_TRUE_ELSE_POP.toByte)
    (hhi : frame.function.chunk.code[frame.ip + 1]? = some hi)
    (hlo : frame.function.chunk.code[frame.ip + 2]? = some lo)
    (hcap : vm.stack_top ≤ vm.stack.length)
    (hstack : live vm = rest ++ [v]) :
    ∃ vm', dispatch x fi vm = .next vm' ∧
      (¬ (v = .nil ∨ v = .bool false) →
        vm'.stack = vm.stack ∧ vm'.stack_top = vm.stack_top ∧ live vm' = rest ++ [v] ∧
        vm'.frames[fi]? = some { frame with ip := frame.ip + 3 + (256 * hi.val + lo.val) }) ∧
      ((v = .nil ∨ v = .bool false) →
        live vm' = rest ∧ vm'.frames[fi]? = some { frame with ip := frame.ip + 3 }) := by
  obtain ⟨htop, hv⟩ := live_top vm rest v hcap hstack
  have hpre := take_of_live vm rest [v] hstack
  have hlt := lt_length_of_getElem? hframe
  have hlen := lt_length_of_getElem? hv
  obtain ⟨frames, fc, stack, top, objs, strs, out, err⟩ := vm
  simp only at htop hv hpre hframe hcap hlt hlen hstack
  subst htop
  have hlive : List.take (rest.length + 1) stack = rest ++ [v] := by simpa [live] using hstack
  have hip : frame.ip + 1 + 2 + (256 * hi.val + lo.val) =
      frame.ip + 3 + (256 * hi.val + lo.val) := by
    omega
  by_cases hv0 : v = .nil ∨ v = .bool false
  · have hf : is_falsey v = true := by rw [is_falsey_iff]; simpa using hv0
    simp [dispatch, READ_BYTE, hframe, hop, ofByte_toByte, Outcome.ofOption, READ_SHORT, jump,
      hlt, hhi, hlo, short_value, peek, pop, hv, hf, hv0, live, hpre, hlive, hip]
  · have hf : is_falsey v = false := by rw [is_falsey_iff]; simpa using hv0
    simp [dispatch, READ_BYTE, hframe, hop, ofByte_toByte, Outcome.ofOption, READ_SHORT, jump,
      hlt, hhi, hlo, short_value, peek, pop, hv, hf, hv0, live, hpre, hlive, hip]

/-- C8 instantiated: `Bool(false)` on top, operand 5: the operand is popped
and execution falls through. -/
theorem JUMP_IF_TRUE_ELSE_POP_step_witness :
    ∃ vm', dispatch sample_host 0
        (sample_vm (sample_function [OpCode.OP_JUMP_IF_TRUE_ELSE_POP.toByte, 0, 5] []) 0
          [.number (.finite 4), .bool false]) = .next vm' ∧
      (¬ ((Value.bool false) = .nil ∨ (Value.bool false) = .bool false) →
        vm'.stack = [.number (.finite 4), .bool false, .nil, .nil] ∧ vm'.stack_top = 2 ∧
        live vm' = [.number (.finite 4)] ++ [.bool false] ∧
        vm'.frames[0]? = some (sample_frame
          (sample_function [OpCode.OP_JUMP_IF_TRUE_ELSE_POP.toByte, 0, 5] [])
          (0 + 3 + (256 * (0 : Fin 256).val + (5 : Fin 256).val)))) ∧
      (((Value.bool false) = .nil ∨ (Value.bool false) = .bool false) →
        live vm' = [.number (.finite 4)] ∧
        vm'.frames[0]? = some (sample_frame
          (sample_function [OpCode.OP_JUMP_IF_TRUE_ELSE_POP.toByte, 0, 5] []) (0 + 3))) :=
  JUMP_IF_TRUE_ELSE_POP_step sample_host 0
    (sample_vm (sample_function [OpCode.OP_JUMP_IF_TRUE_ELSE_POP.toByte, 0, 5] []) 0
      [.number (.finite 4), .bool false])
    (sample_frame (sample_function [OpCode.OP_JUMP_IF_TRUE_ELSE_POP.toByte, 0, 5] []) 0)
    0 5 [.number (.finite 4)] (.bool false) (by rfl) (by decide) (by decide) (by decide)
    (by decide) (by rfl)

/-- C3: when an opcode byte can be fetched, a step ends the run with
`RuntimeError` exactly when the opcode is one of the eight binary arithmetic and
comparison opcodes and one of the (at most two) topmost stack values is not a
`Number`, or the opcode is `NEGATE` and the top value is not a `Number`.  For
`EQUAL`, `NOT_EQUAL` and `NOT` no step ends with `RuntimeError`. -/
theorem RuntimeError_iff (x : Host) (fi : Nat) (vm : VM) (frame : CallFrame)
    (byte : Fin 256)
    (hfc : vm.frame_count = fi + 1)
    (hframe : vm.frames[fi]? = some frame)
    (hop : frame.function.chunk.code[frame.ip]? = some byte)
    (hlines : frame.function.chunk.lines.length = frame.function.chunk.code.length)
    (hcap : vm.stack_top ≤ vm.stack.length) :
    ((∃ vm', dispatch x fi vm = .done .INTERPRET_RUNTIME_ERROR vm') ↔
      (OpCode.ofByte byte ∈
          [some OpCode.OP_ADD, some OpCode.OP_SUBTRACT, some OpCode.OP_MULTIPLY,
            some OpCode.OP_DIVIDE, some OpCode.OP_LESS, some OpCode.OP_GREATER,
            some OpCode.OP_LESS_EQUAL, some OpCode.OP_GREATER_EQUAL] ∧
        ∃ v, (peek 0 vm = some v ∨ peek 1 vm = some v) ∧ IS_NUMBER v = false) ∨
      (OpCode.ofByte byte = some OpCode.OP_NEGATE ∧
        ∃ v, peek 0 vm = some v ∧ IS_NUMBER v = false)) ∧
    (OpCode.ofByte byte ∈ [some OpCode.OP_EQUAL, some OpCode.OP_NOT_EQUAL, some OpCode.OP_NOT] →
      ∀ vm', dispatch x fi vm ≠ .done .INTERPRET_RUNTIME_ERROR vm') := by
  have hlt := lt_length_of_getElem? hframe
  have hip : frame.ip < frame.function.chunk.lines.length := by
    rw [hlines]; exact lt_length_of_getElem? hop
  have hread : READ_BYTE fi vm =
      some (byte, { vm with frames := vm.frames.set fi { frame with ip := frame.ip + 1 } }) := by
    simp [READ_BYTE, hframe, hop]
  have hre : ∀ format, ∃ vm', runtime_error format
      { vm with frames := vm.frames.set fi { frame with ip := frame.ip + 1 } } = some vm' := by
    intro format
    refine ⟨_, runtime_error_eq format _ fi frame.ip { frame with ip := frame.ip + 1 }
      (frame.function.chunk.lines[frame.ip]) hfc ?_ rfl ?_⟩
    · simp [hlt]
    · simp
  have hbin : ∀ {α : Type} (value_type : α → Value) (op : Int → Int → Option α),
      (∃ vm', BINARY_OP value_type op
          { vm with frames := vm.frames.set fi { frame with ip := frame.ip + 1 } } =
            .done .INTERPRET_RUNTIME_ERROR vm') ↔
        ∃ v, (peek 0 vm = some v ∨ peek 1 vm = some v) ∧ IS_NUMBER v = false :=
    fun value_type op => BINARY_OP_done_iff value_type op _ hcap hre
  unfold dispatch
  rw [hread]
  simp only []
  cases hb : OpCode.ofByte byte with
  | none => simp
  | some op =>
    cases op <;> simp [ofOption_ne_done, hbin]
    obtain ⟨w, hw⟩ := hre "Operand must be a number."
    have hp : ∀ frames : List CallFrame, peek 0 { vm with frames := frames } = peek 0 vm :=
      fun _ => rfl
    rw [hp]
    cases h0 : peek 0 vm with
    | none => simp
    | some v0 =>
      cases hn0 : IS_NUMBER v0 with
      | false =>
        simp only [hn0, if_true, fatal_eq_done, true_and, Option.some.injEq, exists_eq_left']
        exact ⟨fun _ => trivial, fun _ => ⟨w, hw⟩⟩
      | true =>
        simp [hn0, ofOption_ne_done]

/-! ## Runs that end in a runtime error -/

/-- C4: when `run` returns `RuntimeError`, the machine it leaves behind has its
stack cursor at the base (the operand stack is empty) and frame count 0, while
the heap object list and the interning table are those of the state `t` in
which the faulting instruction was dispatched (and those of the start of the
run). -/
theorem RuntimeError_resets_stack (x : Host) (fuel : Nat) (vm vm' : VM)
    (h : run x fuel vm = .returned .INTERPRET_RUNTIME_ERROR vm') :
    ∃ n t, steps x (vm.frame_count - 1) n vm = some t ∧
      dispatch x (vm.frame_count - 1) t = .done .INTERPRET_RUNTIME_ERROR vm' ∧
      vm'.stack_top = 0 ∧ live vm' = [] ∧ vm'.frame_count = 0 ∧
      vm'.objects = t.objects ∧ vm'.strings = t.strings ∧
      t.objects = vm.objects ∧ t.strings = vm.strings := by
  unfold run at h
  split at h
  · cases h
  · rename_i fc hfc
    obtain ⟨n, t, hs, hd⟩ := run_loop_returned x fc fuel vm vm' _ h
    obtain ⟨frame, byte, format, -, -, hre⟩ := dispatch_done_error x fc t vm' hd
    obtain ⟨fc', frame', i, line, -, -, -, -, rfl⟩ := runtime_error_some _ _ _ hre
    have hc := steps_core x fc n vm t hs
    simp only [core, Prod.mk.injEq] at hc
    refine ⟨n, t, ?_, ?_, rfl, ?_, rfl, rfl, rfl, hc.2.1, hc.2.2⟩
    · simpa [hfc] using hs
    · simpa [hfc] using hd
    · simp [live, reset_stack]

/-- C4 instantiated: the program `NIL; NEGATE` run on an empty stack. -/
theorem RuntimeError_resets_stack_witness :
    ∃ n t, steps sample_host (sample_negate_nil.frame_count - 1) n sample_negate_nil = some t ∧
      dispatch sample_host (sample_negate_nil.frame_count - 1) t =
        .done .INTERPRET_RUNTIME_ERROR sample_negate_nil_end ∧
      sample_negate_nil_end.stack_top = 0 ∧ live sample_negate_nil_end = [] ∧
      sample_negate_nil_end.frame_count = 0 ∧
      sample_negate_nil_end.objects = t.objects ∧ sample_negate_nil_end.strings = t.strings ∧
      t.objects = sample_negate_nil.objects ∧ t.strings = sample_negate_nil.strings :=
  RuntimeError_resets_stack sample_host 2 sample_negate_nil sample_negate_nil_end (by decide)

/-- C5: when `run` returns `RuntimeError`, the faulting instruction was
dispatched in some state `t` reached from the start; there the topmost frame
(the one `run` executes) had its instruction pointer at an index `i` holding the
opcode byte of that instruction, and the text appended to the error stream is
the message, a newline, and `[line N] in script` with `N = lines[i]`. -/
theorem RuntimeError_reports_opcode_line (x : Host) (fuel : Nat) (vm vm' : VM)
    (h : run x fuel vm = .returned .INTERPRET_RUNTIME_ERROR vm') :
    ∃ n t frame byte format line,
      steps x (vm.frame_count - 1) n vm = some t ∧
      dispatch x (vm.frame_count - 1) t = .done .INTERPRET_RUNTIME_ERROR vm' ∧
      t.frame_count = vm.frame_count ∧
      t.frames[t.frame_count - 1]? = some frame ∧
      frame.function.chunk.code[frame.ip]? = some byte ∧
      frame.function.chunk.lines[frame.ip]? = some line ∧
      vm'.err = t.err ++ format ++ "\n" ++ "[line " ++ toString line ++ "] in script\n" := by
  unfold run at h
  split at h
  · cases h
  · rename_i fc hfc
    obtain ⟨n, t, hs, hd⟩ := run_loop_returned x fc fuel vm vm' _ h
    obtain ⟨frame, byte, format, hframe, hbyte, hre⟩ := dispatch_done_error x fc t vm' hd
    obtain ⟨fc', frame', i, line, hfc', hframe', hi, hline, rfl⟩ := runtime_error_some _ _ _ hre
    have hc := steps_core x fc n vm t hs
    simp only [core, Prod.mk.injEq] at hc
    have htfc : t.frame_count = fc + 1 := by rw [hc.1, hfc]
    have hlt := lt_length_of_getElem? hframe
    simp only [htfc, Nat.add_right_cancel_iff] at hfc'
    subst hfc'
    simp only [List.getElem?_set_self hlt, Option.some.injEq] at hframe'
    subst hframe'
    simp only [Nat.add_right_cancel_iff] at hi
    subst hi
    refine ⟨n, t, frame, byte, format, line, ?_, ?_, ?_, ?_, hbyte, hline, rfl⟩
    · simpa [hfc] using hs
    · simpa [hfc] using hd
    · rw [htfc, hfc]
    · simpa [htfc] using hframe

/-- C5 instantiated: in the program `NIL; NEGATE` the faulting `NEGATE` is the
byte at index 1, recorded on line 20. -/
theorem RuntimeError_reports_opcode_line_witness :
    ∃ n t frame byte format line,
      steps sample_host (sample_negate_nil.frame_count - 1) n sample_negate_nil = some t ∧
      dispatch sample_host (sample_negate_nil.frame_count - 1) t =
        .done .INTERPRET_RUNTIME_ERROR sample_negate_nil_end ∧
      t.frame_count = sample_negate_nil.frame_count ∧
      t.frames[t.frame_count - 1]? = some frame ∧
      frame.function.chunk.code[frame.ip]? = some byte ∧
      frame.function.chunk.lines[frame.ip]? = some line ∧
      sample_negate_nil_end.err =
        t.err ++ format ++ "\n" ++ "[line " ++ toString line ++ "] in script\n" :=
  RuntimeError_reports_opcode_line sample_host 2 sample_negate_nil sample_negate_nil_end
    (by decide)

/-- C3 instantiated: `ADD` on `Number(2)` beneath `Nil`. -/
theorem RuntimeError_iff_witness :
    ((∃ vm', dispatch sample_host 0
        (sample_vm (sample_function [OpCode.OP_ADD.toByte] []) 0 [.number (.finite 2), .nil]) =
          .done .INTERPRET_RUNTIME_ERROR vm') ↔
      (OpCode.ofByte OpCode.OP_ADD.toByte ∈
          [some OpCode.OP_ADD, some OpCode.OP_SUBTRACT, some OpCode.OP_MULTIPLY,
            some OpCode.OP_DIVIDE, some OpCode.OP_LESS, some OpCode.OP_GREATER,
            some OpCode.OP_LESS_EQUAL, some OpCode.OP_GREATER_EQUAL] ∧
        ∃ v, (peek 0 (sample_vm (sample_function [OpCode.OP_ADD.toByte] []) 0
                [.number (.finite 2), .nil]) = some v ∨
              peek 1 (sample_vm (sample_function [OpCode.OP_ADD.toByte] []) 0
                [.number (.finite 2), .nil]) = some v) ∧ IS_NUMBER v = false) ∨
      (OpCode.ofByte OpCode.OP_ADD.toByte = some OpCode.OP_NEGATE ∧
        ∃ v, peek 0 (sample_vm (sample_function [OpCode.OP_ADD.toByte] []) 0
                [.number (.finite 2), .nil]) = some v ∧ IS_NUMBER v = false)) ∧
    (OpCode.ofByte OpCode.OP_ADD.toByte ∈
        [some OpCode.OP_EQUAL, some OpCode.OP_NOT_EQUAL, some OpCode.OP_NOT] →
      ∀ vm', dispatch sample_host 0
        (sample_vm (sample_function [OpCode.OP_ADD.toByte] []) 0 [.number (.finite 2), .nil]) ≠
          .done .INTERPRET_RUNTIME_ERROR vm') :=
  RuntimeError_iff sample_host 0
    (sample_vm (sample_function [OpCode.OP_ADD.toByte] []) 0 [.number (.finite 2), .nil])
    (sample_frame (sample_function [OpCode.OP_ADD.toByte] []) 0) OpCode.OP_ADD.toByte
    (by rfl) (by rfl) (by decide) (by decide) (by decide)

/-! ## Further instructions -/

/-- C16: the comparison opcodes compare the operands after storing them in
`int`s.  `LESS` on `Number(1.2)`, `Number(1.5)` pushes `Bool(false)` although
`1.2 < 1.5`, and so does `LESS` on `Number(1.25)`, `Number(1.5)`. -/
theorem comparison_truncates_to_int :
    (∃ vm', dispatch sample_host 0
        (sample_vm (sample_function [OpCode.OP_LESS.toByte] []) 0
          [.number (.finite (6 / 5)), .number (.finite (3 / 2))]) = .next vm' ∧
      live vm' = [.bool false] ∧ (6 / 5 : ℚ) < 3 / 2) ∧
    (∃ vm', dispatch sample_host 0
        (sample_vm (sample_function [OpCode.OP_LESS.toByte] []) 0
          [.number (.finite (5 / 4)), .number (.finite (3 / 2))]) = .next vm' ∧
      live vm' = [.bool false] ∧ (5 / 4 : ℚ) < 3 / 2) := by
  constructor
  · simp [dispatch, sample_vm, sample_frame, sample_function, READ_BYTE, OpCode.toByte,
      OpCode.ofByte, BINARY_OP, peek, IS_NUMBER, pop, AS_NUMBER, double_to_int_three_halves,
      double_to_int_six_fifths, Outcome.ofOption, push, BOOL_VAL, live]
    norm_num
  · simp [dispatch, sample_vm, sample_frame, sample_function, READ_BYTE, OpCode.toByte,
      OpCode.ofByte, BINARY_OP, peek, IS_NUMBER, pop, AS_NUMBER, double_to_int_three_halves,
      double_to_int_five_quarters, Outcome.ofOption, push, BOOL_VAL, live]
    norm_num

/-- C14: with `v` on top of the stack, one step at a `PRINT` opcode appends the
text of `v` and a newline to the output stream and replaces `v` by `Nil`; the
cursor and the cells below are unchanged, and nothing is written to the error
stream. -/
theorem PRINT_writes_value (x : Host) (fi : Nat) (vm : VM) (frame : CallFrame)
    (rest : List Value) (v : Value)
    (hframe : vm.frames[fi]? = some frame)
    (hop : frame.function.chunk.code[frame.ip]? = some OpCode.OP_PRINT.toByte)
    (hcap : vm.stack_top ≤ vm.stack.length)
    (hstack : live vm = rest ++ [v]) :
    ∃ vm', dispatch x fi vm = .next vm' ∧
      vm'.out = vm.out ++ x.print_value v ++ "\n" ∧
      live vm' = rest ++ [.nil] ∧ vm'.stack_top = vm.stack_top ∧ vm'.err = vm.err ∧
      vm'.frames[fi]? = some { frame with ip := frame.ip + 1 } := by
  obtain ⟨htop, hv⟩ := live_top vm rest v hcap hstack
  have hpre := take_of_live vm rest [v] hstack
  have hlt := lt_length_of_getElem? hframe
  have hlen := lt_length_of_getElem? hv
  obtain ⟨frames, fc, stack, top, objs, strs, out, err⟩ := vm
  simp only at htop hv hpre hframe hcap hlt hlen
  subst htop
  simp [dispatch, READ_BYTE, hframe, hop, ofByte_toByte, Outcome.ofOption, pop, push, hv,
    live, hlen, take_set_succ, hpre, hlt]

/-- C14 instantiated: `PRINT` with `Bool(true)` above `Number(4)`. -/
theorem PRINT_writes_value_witness :
    ∃ vm', dispatch sample_host 0
        (sample_vm (sample_function [OpCode.OP_PRINT.toByte] []) 0
          [.number (.finite 4), .bool true]) = .next vm' ∧
      vm'.out = "" ++ sample_host.print_value (.bool true) ++ "\n" ∧
      live vm' = [.number (.finite 4)] ++ [.nil] ∧ vm'.stack_top = 2 ∧ vm'.err = "" ∧
      vm'.frames[0]? =
        some (sample_frame (sample_function [OpCode.OP_PRINT.toByte] []) (0 + 1)) :=
  PRINT_writes_value sample_host 0
    (sample_vm (sample_function [OpCode.OP_PRINT.toByte] []) 0
      [.number (.finite 4), .bool true])
    (sample_frame (sample_function [OpCode.OP_PRINT.toByte] []) 0)
    [.number (.finite 4)] (.bool true) (by rfl) (by decide) (by decide) (by rfl)

/-- C20: with `Number(qa)` beneath `Number(qb)` on top, both truncating into the
`int` range, and the `int` operation defined, one step at a binary arithmetic
or comparison opcode pops both operands and pushes the result of the integer
operator on `trunc qa` and `trunc qb`: the sum, difference, product or
truncating quotient as a `Number`, or the comparison as a `Bool`.  For
integer-valued operands `ADD`, `SUBTRACT` and `MULTIPLY` push the exact integer
result. -/
theorem BINARY_OP_on_truncated_ints (x : Host) (fi : Nat) (vm : VM) (frame : CallFrame)
    (rest : List Value) (op : OpCode) (qa qb : ℚ) (v : Value)
    (hframe : vm.frames[fi]? = some frame)
    (hop : frame.function.chunk.code[frame.ip]? = some op.toByte)
    (hcap : vm.stack_top ≤ vm.stack.length)
    (hstack : live vm = rest ++ [.number (.finite qa), .number (.finite qb)])
    (ha : INT_MIN ≤ trunc qa ∧ trunc qa ≤ INT_MAX)
    (hb : INT_MIN ≤ trunc qb ∧ trunc qb ≤ INT_MAX)
    (hdef : int_defined op (trunc qa) (trunc qb))
    (hv : truncated_result op (trunc qa) (trunc qb) = some v) :
    (∃ vm', dispatch x fi vm = .next vm' ∧ live vm' = rest ++ [v] ∧
      vm'.frames[fi]? = some { frame with ip := frame.ip + 1 }) ∧
    (∀ m n : Int, qa = m → qb = n →
      (op = .OP_ADD → v = .number (.finite ((m + n : Int) : ℚ))) ∧
      (op = .OP_SUBTRACT → v = .number (.finite ((m - n : Int) : ℚ))) ∧
      (op = .OP_MULTIPLY → v = .number (.finite ((m * n : Int) : ℚ)))) := by
  have hlt := lt_length_of_getElem? hframe
  have hda := double_to_int_finite qa ha
  have hdb := double_to_int_finite qb hb
  have hread := read_byte_eq fi vm frame op.toByte hframe hop
  have hbin : ∀ {α : Type} (value_type : α → Value) (f : Int → Int → Option α) (r : α),
      f (trunc qa) (trunc qb) = some r →
      ∃ vm', BINARY_OP value_type f
          { vm with frames := vm.frames.set fi { frame with ip := frame.ip + 1 } } = .next vm' ∧
        live vm' = rest ++ [value_type r] ∧
        vm'.frames[fi]? = some { frame with ip := frame.ip + 1 } := by
    intro α value_type f r hr
    obtain ⟨vm', h1, h2, h3, -⟩ := BINARY_OP_eq value_type f
      { vm with frames := vm.frames.set fi { frame with ip := frame.ip + 1 } }
      rest _ _ _ _ r hcap hstack hda hdb hr
    refine ⟨vm', h1, h2, ?_⟩
    rw [h3]
    simp [hlt]
  constructor
  · unfold dispatch
    rw [hread]
    simp only [ofByte_toByte]
    cases op <;> simp only [truncated_result, Option.some.injEq] at hv
    case OP_ADD =>
      subst hv
      simp only [int_defined] at hdef
      exact hbin NUMBER_VAL int_add _ (by simp [int_add, int_range, hdef])
    case OP_SUBTRACT =>
      subst hv
      simp only [int_defined] at hdef
      exact hbin NUMBER_VAL int_sub _ (by simp [int_sub, int_range, hdef])
    case OP_MULTIPLY =>
      subst hv
      simp only [int_defined] at hdef
      exact hbin NUMBER_VAL int_mul _ (by simp [int_mul, int_range, hdef])
    case OP_DIVIDE =>
      subst hv
      simp only [int_defined] at hdef
      exact hbin NUMBER_VAL int_div _ (by simp [int_div, int_range, hdef])
    case OP_LESS =>
      subst hv
      exact hbin BOOL_VAL _ _ rfl
    case OP_GREATER =>
      subst hv
      exact hbin BOOL_VAL _ _ rfl
    case OP_LESS_EQUAL =>
      subst hv
      exact hbin BOOL_VAL _ _ rfl
    case OP_GREATER_EQUAL =>
      subst hv
      exact hbin BOOL_VAL _ _ rfl
    all_goals exact Option.noConfusion hv
  · intro m n hm hn
    subst hm hn
    simp only [trunc_intCast] at hv
    refine ⟨?_, ?_, ?_⟩ <;> intro hop' <;> subst hop' <;>
      simp only [truncated_result, Option.some.injEq] at hv <;> exact hv.symm

/-! ## Variables, compilation and return -/

theorem GET_VARIABLE_step (x : Host) (fi : Nat) (vm : VM) (frame : CallFrame)
    (s : Fin 256) (v : Value)
    (hframe : vm.frames[fi]? = some frame)
    (hop : frame.function.chunk.code[frame.ip]? = some OpCode.OP_GET_VARIABLE.toByte)
    (hs : frame.function.chunk.code[frame.ip + 1]? = some s)
    (hv : vm.stack[s.val]? = some v)
    (hroom : vm.stack_top < vm.stack.length) :
    ∃ vm', dispatch x fi vm = .next vm' ∧ live vm' = live vm ++ [v] ∧
      vm'.frames[fi]? = some { frame with ip := frame.ip + 2 } := by
  have hlt := lt_length_of_getElem? hframe
  obtain ⟨frames, fc, stack, top, objs, strs, out, err⟩ := vm
  simp only at hframe hv hroom hlt
  simp [dispatch, READ_BYTE, hframe, hop, hs, ofByte_toByte, Outcome.ofOption, push, hv, hroom,
    live, hlt, take_set_succ]

/-- C12: when `compile` reports failure, `interpret` returns `CompileError` for
every amount of fuel (also for none: no loop iteration takes place), and the
machine it returns has the stack array, the cursor, the frame array, the frame
count and the output stream of the machine it was given. -/
theorem compile_failure_is_CompileError (x : Host) (source : String) (vm : VM)
    (h : (x.compile source vm.objects vm.strings vm.err).function = none) :
    ∃ vm', (∀ fuel, interpret x fuel source vm = .returned .INTERPRET_COMPILE_ERROR vm') ∧
      vm'.stack = vm.stack ∧ vm'.stack_top = vm.stack_top ∧ live vm' = live vm ∧
      vm'.frame_count = vm.frame_count ∧ vm'.frames = vm.frames ∧ vm'.out = vm.out := by
  refine ⟨{ vm with
      objects := (x.compile source vm.objects vm.strings vm.err).objects
      strings := (x.compile source vm.objects vm.strings vm.err).strings
      err := (x.compile source vm.objects vm.strings vm.err).err }, fun fuel => ?_, ?_⟩
  · unfold interpret
    simp only [h]
  · simp [live]

/-- C12 instantiated: a host whose compiler rejects every text. -/
theorem compile_failure_is_CompileError_witness :
    ∃ vm', (∀ fuel, interpret sample_host fuel "print 1 +" sample_negate_nil =
        .returned .INTERPRET_COMPILE_ERROR vm') ∧
      vm'.stack = sample_negate_nil.stack ∧ vm'.stack_top = sample_negate_nil.stack_top ∧
      live vm' = live sample_negate_nil ∧
      vm'.frame_count = sample_negate_nil.frame_count ∧
      vm'.frames = sample_negate_nil.frames ∧ vm'.out = sample_negate_nil.out :=
  compile_failure_is_CompileError sample_host "print 1 +" sample_negate_nil (by rfl)

theorem interpret_eq_run_loop (x : Host) (fuel : Nat) (source : String) (vm : VM)
    (ref : ObjRef) (function : ObjFunction)
    (hc : (x.compile source vm.objects vm.strings vm.err).function = some (ref, function))
    (hroom : vm.stack_top < vm.stack.length) (hframes : vm.frame_count < vm.frames.length) :
    interpret x fuel source vm =
      run_loop x vm.frame_count fuel
        (entry (x.compile source vm.objects vm.strings vm.err) ref function vm) := by
  unfold interpret
  simp only [hc, push, hroom, if_true, hframes]
  rfl

theorem interpret_returned (x : Host) (fuel : Nat) (source : String) (vm vm' : VM)
    (r : InterpretResult) (h : interpret x fuel source vm = .returned r vm')
    (hr : r ≠ .INTERPRET_COMPILE_ERROR) :
    ∃ ref function,
      (x.compile source vm.objects vm.strings vm.err).function = some (ref, function) ∧
      vm.stack_top < vm.stack.length ∧ vm.frame_count < vm.frames.length ∧
      run_loop x vm.frame_count fuel
        (entry (x.compile source vm.objects vm.strings vm.err) ref function vm) =
          .returned r vm' := by
  cases hc : (x.compile source vm.objects vm.strings vm.err).function with
  | none =>
    unfold interpret at h
    simp only [hc] at h
    cases h
    exact absurd rfl hr
  | some p =>
    obtain ⟨ref, function⟩ := p
    by_cases hroom : vm.stack_top < vm.stack.length
    · by_cases hframes : vm.frame_count < vm.frames.length
      · rw [interpret_eq_run_loop x fuel source vm ref function hc hroom hframes] at h
        exact ⟨ref, function, rfl, hroom, hframes, h⟩
      · unfold interpret at h
        simp [hc, push, hroom, hframes] at h
    · unfold interpret at h
      simp [hc, push, hroom] at h

theorem dispatch_done_ok (x : Host) (fi : Nat) (vm vm' : VM)
    (h : dispatch x fi vm = .done .INTERPRET_OK vm') :
    ∃ frame byte, vm.frames[fi]? = some frame ∧
      frame.function.chunk.code[frame.ip]? = some byte ∧
      OpCode.ofByte byte = some .OP_RETURN ∧
      vm' = { vm with frames := vm.frames.set fi { frame with ip := frame.ip + 1 } } := by
  unfold dispatch at h
  split at h
  · cases h
  · rename_i instruction vm1 hread
    obtain ⟨frame, hframe, hbyte, rfl⟩ := READ_BYTE_some hread
    refine ⟨frame, instruction, hframe, hbyte, ?_⟩
    split at h
    · cases h
    all_goals first
      | exact absurd h (ofOption_ne_done _ _ _)
      | exact absurd (BINARY_OP_done _ _ _ _ _ h).1 (by decide)
      | (rename_i hb
         cases h
         exact ⟨hb, rfl⟩)
      | (split at h
         · cases h
         · split at h
           · exact absurd ((fatal_eq_done _ _ _ _).mp h).1 (by decide)
           · exact absurd h (ofOption_ne_done _ _ _))

theorem interpret_ok_frame_count (x : Host) (fuel : Nat) (source : String) (vm vm' : VM)
    (h : interpret x fuel source vm = .returned .INTERPRET_OK vm') :
    vm'.frame_count = vm.frame_count + 1 := by
  obtain ⟨ref, function, -, -, -, hrun⟩ := interpret_returned x fuel source vm vm' _ h (by decide)
  obtain ⟨n, t, hs, hd⟩ := run_loop_returned x _ fuel _ vm' _ hrun
  obtain ⟨frame, byte, -, -, -, rfl⟩ := dispatch_done_ok x _ t vm' hd
  have hc := steps_core x _ n _ t hs
  simp only [core, Prod.mk.injEq] at hc
  exact hc.1

theorem interpret_all_frame_count (x : Host) (calls : List (Nat × String)) (vm vm' : VM)
    (h : interpret_all x calls vm = some vm') :
    vm'.frame_count = vm.frame_count + calls.length := by
  induction calls generalizing vm with
  | nil =>
    cases h
    rfl
  | cons call calls ih =>
    obtain ⟨fuel, source⟩ := call
    unfold interpret_all at h
    split at h
    · rename_i vm1 h1
      rw [ih vm1 h, interpret_ok_frame_count x fuel source vm vm1 h1, List.length_cons]
      omega
    · cases h

/-- C19: when `interpret` returns `Ok`, the frame count is one more than before
the call, and the machine returned is the machine `t` in which the `RETURN`
opcode was dispatched (reached from the machine in which `run` was entered),
with the same stack array, cursor, frame count, heap, interning table and
streams; only the instruction pointer has moved past the opcode.  Hence after
any number of consecutive calls that all return `Ok`, starting just after
`init_vm`, the frame count is the number of calls. -/
theorem RETURN_keeps_machine_state (x : Host) (fuel : Nat) (source : String) (vm vm' : VM)
    (h : interpret x fuel source vm = .returned .INTERPRET_OK vm') :
    vm'.frame_count = vm.frame_count + 1 ∧
    (∃ ref function n t frame byte,
      steps x vm.frame_count n
        (entry (x.compile source vm.objects vm.strings vm.err) ref function vm) = some t ∧
      t.frames[vm.frame_count]? = some frame ∧
      frame.function.chunk.code[frame.ip]? = some byte ∧
      OpCode.ofByte byte = some .OP_RETURN ∧
      dispatch x vm.frame_count t = .done .INTERPRET_OK vm' ∧
      vm'.stack = t.stack ∧ vm'.stack_top = t.stack_top ∧ live vm' = live t ∧
      vm'.frame_count = t.frame_count ∧ vm'.objects = t.objects ∧ vm'.strings = t.strings ∧
      vm'.out = t.out ∧ vm'.err = t.err) ∧
    (∀ (calls : List (Nat × String)) (vm0 vmk : VM),
      interpret_all x calls (init_vm vm0) = some vmk → vmk.frame_count = calls.length) := by
  refine ⟨interpret_ok_frame_count x fuel source vm vm' h, ?_, ?_⟩
  · obtain ⟨ref, function, -, -, -, hrun⟩ :=
      interpret_returned x fuel source vm vm' _ h (by decide)
    obtain ⟨n, t, hs, hd⟩ := run_loop_returned x _ fuel _ vm' _ hrun
    obtain ⟨frame, byte, hframe, hbyte, hret, rfl⟩ := dispatch_done_ok x _ t _ hd
    exact ⟨ref, function, n, t, frame, byte, hs, hframe, hbyte, hret, hd, rfl, rfl, rfl, rfl,
      rfl, rfl, rfl, rfl⟩
  · intro calls vm0 vmk hk
    rw [interpret_all_frame_count x calls _ vmk hk]
    simp [init_vm, reset_stack]

/-- C19 instantiated: the program `RETURN` interpreted on a fresh machine. -/
theorem RETURN_keeps_machine_state_witness :
    sample_done_end.frame_count = sample_fresh.frame_count + 1 ∧
    (∃ ref function n t frame byte,
      steps sample_compiler sample_fresh.frame_count n
        (entry (sample_compiler.compile "done" sample_fresh.objects sample_fresh.strings
          sample_fresh.err) ref function sample_fresh) = some t ∧
      t.frames[sample_fresh.frame_count]? = some frame ∧
      frame.function.chunk.code[frame.ip]? = some byte ∧
      OpCode.ofByte byte = some .OP_RETURN ∧
      dispatch sample_compiler sample_fresh.frame_count t =
        .done .INTERPRET_OK sample_done_end ∧
      sample_done_end.stack = t.stack ∧ sample_done_end.stack_top = t.stack_top ∧
      live sample_done_end = live t ∧
      sample_done_end.frame_count = t.frame_count ∧ sample_done_end.objects = t.objects ∧
      sample_done_end.strings = t.strings ∧
      sample_done_end.out = t.out ∧ sample_done_end.err = t.err) ∧
    (∀ (calls : List (Nat × String)) (vm0 vmk : VM),
      interpret_all sample_compiler calls (init_vm vm0) = some vmk →
        vmk.frame_count = calls.length) :=
  RETURN_keeps_machine_state sample_compiler 5 "done" sample_fresh sample_done_end (by decide)

theorem trunc_fifteen_halves : trunc (15 / 2) = 7 := by
  have h : Int.tdiv 15 2 = 7 := by decide
  norm_num [trunc, h]

theorem trunc_two : trunc 2 = 2 := by
  decide

/-- C20 instantiated: `DIVIDE` on `Number(7.5)`, `Number(2)` pushes `Number(3)`. -/
theorem BINARY_OP_on_truncated_ints_witness :
    (∃ vm', dispatch sample_host 0
        (sample_vm (sample_function [OpCode.OP_DIVIDE.toByte] []) 0
          [.number (.finite (15 / 2)), .number (.finite 2)]) = .next vm' ∧
      live vm' = [] ++ [.number (.finite 3)] ∧
      vm'.frames[0]? =
        some (sample_frame (sample_function [OpCode.OP_DIVIDE.toByte] []) (0 + 1))) ∧
    (∀ m n : Int, (15 / 2 : ℚ) = m → (2 : ℚ) = n →
      (OpCode.OP_DIVIDE = .OP_ADD → Value.number (.finite 3) = .number (.finite ((m + n : Int) : ℚ))) ∧
      (OpCode.OP_DIVIDE = .OP_SUBTRACT →
        Value.number (.finite 3) = .number (.finite ((m - n : Int) : ℚ))) ∧
      (OpCode.OP_DIVIDE = .OP_MULTIPLY →
        Value.number (.finite 3) = .number (.finite ((m * n : Int) : ℚ)))) :=
  BINARY_OP_on_truncated_ints sample_host 0
    (sample_vm (sample_function [OpCode.OP_DIVIDE.toByte] []) 0
      [.number (.finite (15 / 2)), .number (.finite 2)])
    (sample_frame (sample_function [OpCode.OP_DIVIDE.toByte] []) 0)
    [] OpCode.OP_DIVIDE (15 / 2) 2 (.number (.finite 3))
    (by rfl) (by decide) (by decide) (by rfl)
    (by rw [trunc_fifteen_halves]; decide) (by rw [trunc_two]; decide)
    (by rw [trunc_fifteen_halves, trunc_two]; simp only [int_defined]; decide)
    (by rw [trunc_fifteen_halves, trunc_two]; simp [truncated_result]; decide)

/-! ## Stack depth -/

theorem shifts_none (d : Int) (vm : VM) : Shifts d none vm := by
  intro r h; cases h

theorem shifts_some (vm : VM) : Shifts 0 (some vm) vm := by
  intro r h; cases h; simp

theorem shifts_push (v : Value) (vm : VM) : Shifts 1 (push v vm) vm := by
  intro r h
  unfold push at h
  split at h
  · cases h; simp
  · cases h

theorem shifts_jump (fi offset : Nat) (vm : VM) : Shifts 0 (jump fi offset vm) vm := by
  intro r h
  unfold jump at h
  split at h
  · cases h
  · cases h; simp

theorem pop_shift {vm r : VM} {v : Value} (h : pop vm = some (v, r)) :
    (r.stack_top : Int) = vm.stack_top + (-1) := by
  unfold pop at h
  split at h
  · cases h
  · rename_i top htop
    split at h
    · cases h
    · cases h
      simp only [htop]
      omega

theorem READ_BYTE_shift {fi : Nat} {vm r : VM} {b : Fin 256}
    (h : READ_BYTE fi vm = some (b, r)) : (r.stack_top : Int) = vm.stack_top + 0 := by
  obtain ⟨frame, -, -, rfl⟩ := READ_BYTE_some h
  simp

theorem READ_SHORT_some {fi : Nat} {vm r : VM} {n : Nat} (h : READ_SHORT fi vm = some (n, r)) :
    ∃ frame, vm.frames[fi]? = some frame ∧
      r = { vm with frames := vm.frames.set fi { frame with ip := frame.ip + 2 } } := by
  unfold READ_SHORT at h
  split at h
  · cases h
  · rename_i frame hframe
    simp only at h
    split at h
    · cases h
      exact ⟨frame, hframe, rfl⟩
    · cases h

theorem READ_SHORT_shift {fi : Nat} {vm r : VM} {n : Nat}
    (h : READ_SHORT fi vm = some (n, r)) : (r.stack_top : Int) = vm.stack_top + 0 := by
  obtain ⟨frame, -, rfl⟩ := READ_SHORT_some h
  simp

theorem READ_CONSTANT_shift {fi : Nat} {vm r : VM} {v : Value}
    (h : READ_CONSTANT fi vm = some (v, r)) : (r.stack_top : Int) = vm.stack_top + 0 := by
  unfold READ_CONSTANT at h
  split at h
  · cases h
  · rename_i index vm1 hread
    split at h
    · cases h
    · split at h
      · cases h
      · cases h
        exact READ_BYTE_shift hread

theorem shifts_bind_state {α : Type} {o : Option (α × VM)} {f : α × VM → Option VM} {vm : VM}
    {d1 d2 : Int}
    (h1 : ∀ a r, o = some (a, r) → (r.stack_top : Int) = vm.stack_top + d1)
    (h2 : ∀ a r, Shifts d2 (f (a, r)) r) : Shifts (d1 + d2) (o.bind f) vm := by
  intro r h
  cases ho : o with
  | none => rw [ho] at h; cases h
  | some p =>
    rw [ho] at h
    have e1 := h1 p.1 p.2 ho
    have e2 := h2 p.1 p.2 r h
    omega

theorem shifts_bind_pure {α : Type} {o : Option α} {f : α → Option VM} {vm : VM} {d : Int}
    (h2 : ∀ a, Shifts d (f a) vm) : Shifts d (o.bind f) vm := by
  intro r h
  cases ho : o with
  | none => rw [ho] at h; cases h
  | some a => rw [ho] at h; exact h2 a r h

theorem shifts_cast {o : Option VM} {vm : VM} {d : Int} (d' : Int) (h : Shifts d' o vm)
    (hd : d' = d) : Shifts d o vm := hd ▸ h

theorem shifts_of_top {o : Option VM} {vm vm1 : VM} {d : Int} (h : Shifts d o vm1)
    (ht : vm1.stack_top = vm.stack_top) : Shifts d o vm := by
  intro r hr
  rw [h r hr, ht]

theorem BINARY_OP_next_shift {α : Type} (value_type : α → Value) (op : Int → Int → Option α)
    (vm vm' : VM) (h : BINARY_OP value_type op vm = .next vm') :
    (vm'.stack_top : Int) = vm.stack_top + (-1) := by
  unfold BINARY_OP at h
  split at h
  · cases h
  · split at h
    · unfold fatal at h; split at h <;> cases h
    · split at h
      · cases h
      · split at h
        · unfold fatal at h; split at h <;> cases h
        · refine shifts_cast ((-1) + ((-1) + 1)) ?_ (by decide) vm' (ofOption_next h)
          refine shifts_bind_state (fun _ _ => pop_shift) (fun _ _ => ?_)
          refine shifts_bind_pure (fun _ => ?_)
          refine shifts_bind_state (fun _ _ => pop_shift) (fun _ _ => ?_)
          refine shifts_bind_pure (fun _ => ?_)
          refine shifts_bind_pure (fun _ => ?_)
          exact shifts_push _ _

theorem jump_if_false_else_pop_shift (fi offset : Nat) (vm vm' : VM) (top : Value)
    (h : (if is_falsey top = true then jump fi offset vm
          else (pop vm).bind fun p => some p.2) = some vm') :
    (vm'.stack_top : Int) = vm.stack_top + (if is_falsey top = true then 0 else -1) := by
  split at h
  · rename_i hc
    rw [if_pos hc]
    exact shifts_jump fi offset vm vm' h
  · rename_i hc
    rw [if_neg hc]
    cases hp : pop vm with
    | none => rw [hp] at h; cases h
    | some p =>
      rw [hp] at h
      cases h
      exact pop_shift hp

theorem jump_if_true_else_pop_shift (fi offset : Nat) (vm vm' : VM) (top : Value)
    (h : (if is_falsey top = true then (pop vm).bind fun p => some p.2
          else jump fi offset vm) = some vm') :
    (vm'.stack_top : Int) = vm.stack_top + (if is_falsey top = true then -1 else 0) := by
  split at h
  · rename_i hc
    rw [if_pos hc]
    cases hp : pop vm with
    | none => rw [hp] at h; cases h
    | some p =>
      rw [hp] at h
      cases h
      exact pop_shift hp
  · rename_i hc
    rw [if_neg hc]
    exact shifts_jump fi offset vm vm' h

/-- C17: a step that does not fault (it ends in `break`, or returns `Ok`) moves
the stack cursor by exactly the net stack effect of its opcode: `+1` for the
pushing opcodes, `-1` for the binary opcodes, `POP`, `PUSH_DOWN` and
`JUMP_IF_FALSE`, `0` for `NOT`, `NEGATE`, `PRINT`, `JUMP` and `RETURN`, and for
the two `..._ELSE_POP` opcodes `0` or `-1` according to the value on top. -/
theorem step_changes_depth_by_stack_effect (x : Host) (fi : Nat) (vm vm' : VM)
    (frame : CallFrame) (byte : Fin 256) (op : OpCode)
    (hframe : vm.frames[fi]? = some frame)
    (hbyte : frame.function.chunk.code[frame.ip]? = some byte)
    (hop : OpCode.ofByte byte = some op)
    (h : dispatch x fi vm = .next vm' ∨ dispatch x fi vm = .done .INTERPRET_OK vm') :
    (vm'.stack_top : Int) =
      vm.stack_top + stack_effect op (((peek 0 vm).map is_falsey).getD false) := by
  rcases h with h | h
  · have hread := read_byte_eq fi vm frame byte hframe hbyte
    unfold dispatch at h
    rw [hread] at h
    simp only [hop] at h
    generalize hvm1 :
      ({ vm with frames := vm.frames.set fi { frame with ip := frame.ip + 1 } } : VM) = vm1 at h
    have htop1 : vm1.stack_top = vm.stack_top := by rw [← hvm1]
    have hpeek1 : peek 0 vm1 = peek 0 vm := by rw [← hvm1]; rfl
    rw [← htop1]
    cases op <;> simp only at h
    case OP_JUMP_IF_FALSE_ELSE_POP =>
      have h' := ofOption_next h
      cases hrs : READ_SHORT fi vm1 with
      | none => rw [hrs] at h'; cases h'
      | some p =>
        obtain ⟨offset, vm2⟩ := p
        obtain ⟨fr, -, rfl⟩ := READ_SHORT_some hrs
        rw [hrs] at h'
        simp only [Option.some_bind, Option.bind_eq_bind] at h'
        cases hp : peek 0 vm1 with
        | none =>
          rw [show peek 0 { vm1 with frames := vm1.frames.set fi { fr with ip := fr.ip + 2 } } =
            peek 0 vm1 from rfl, hp] at h'
          cases h'
        | some top =>
          rw [show peek 0 { vm1 with frames := vm1.frames.set fi { fr with ip := fr.ip + 2 } } =
            peek 0 vm1 from rfl, hp] at h'
          simp only [Option.some_bind] at h'
          have hs := jump_if_false_else_pop_shift fi offset _ vm' top h'
          rw [← hpeek1, hp]
          simpa [stack_effect] using hs
    case OP_JUMP_IF_TRUE_ELSE_POP =>
      have h' := ofOption_next h
      cases hrs : READ_SHORT fi vm1 with
      | none => rw [hrs] at h'; cases h'
      | some p =>
        obtain ⟨offset, vm2⟩ := p
        obtain ⟨fr, -, rfl⟩ := READ_SHORT_some hrs
        rw [hrs] at h'
        simp only [Option.some_bind, Option.bind_eq_bind] at h'
        cases hp : peek 0 vm1 with
        | none =>
          rw [show peek 0 { vm1 with frames := vm1.frames.set fi { fr with ip := fr.ip + 2 } } =
            peek 0 vm1 from rfl, hp] at h'
          cases h'
        | some top =>
          rw [show peek 0 { vm1 with frames := vm1.frames.set fi { fr with ip := fr.ip + 2 } } =
            peek 0 vm1 from rfl, hp] at h'
          simp only [Option.some_bind] at h'
          have hs := jump_if_true_else_pop_shift fi offset _ vm' top h'
          rw [← hpeek1, hp]
          simpa [stack_effect] using hs
    case OP_NEGATE =>
      split at h
      · cases h
      · split at h
        · unfold fatal at h
          split at h <;> cases h
        · refine shifts_cast ((-1) + 1) ?_ (by simp [stack_effect]) vm' (ofOption_next h)
          refine shifts_bind_state (fun _ _ => pop_shift) (fun _ _ => ?_)
          refine shifts_bind_pure (fun _ => ?_)
          exact shifts_push _ _
    case OP_RETURN => cases h
    all_goals first
      | exact BINARY_OP_next_shift _ _ _ _ h
      | (refine shifts_cast 1 ?hs (by simp [stack_effect]) vm' (ofOption_next h)
         case hs =>
           repeat' first
             | exact shifts_push _ _
             | exact shifts_some _
             | exact shifts_jump _ _ _
             | exact shifts_none _ _
             | exact shifts_of_top (shifts_push _ _) rfl
             | refine shifts_bind_state (fun _ _ => pop_shift) (fun _ _ => ?_)
             | refine shifts_bind_state (fun _ _ => READ_BYTE_shift) (fun _ _ => ?_)
             | refine shifts_bind_state (fun _ _ => READ_SHORT_shift) (fun _ _ => ?_)
             | refine shifts_bind_state (fun _ _ => READ_CONSTANT_shift) (fun _ _ => ?_)
             | refine shifts_bind_pure (fun _ => ?_)
             | dsimp only
             | split)
      | (refine shifts_cast (0 + 1) ?hs (by simp [stack_effect]) vm' (ofOption_next h)
         case hs =>
           repeat' first
             | exact shifts_push _ _
             | exact shifts_some _
             | exact shifts_jump _ _ _
             | exact shifts_none _ _
             | exact shifts_of_top (shifts_push _ _) rfl
             | refine shifts_bind_state (fun _ _ => pop_shift) (fun _ _ => ?_)
             | refine shifts_bind_state (fun _ _ => READ_BYTE_shift) (fun _ _ => ?_)
             | refine shifts_bind_state (fun _ _ => READ_SHORT_shift) (fun _ _ => ?_)
             | refine shifts_bind_state (fun _ _ => READ_CONSTANT_shift) (fun _ _ => ?_)
             | refine shifts_bind_pure (fun _ => ?_)
             | dsimp only
             | split)
      | (refine shifts_cast ((-1) + ((-1) + 1)) ?hs (by simp [stack_effect]) vm' (ofOption_next h)
         case hs =>
           repeat' first
             | exact shifts_push _ _
             | exact shifts_some _
             | exact shifts_jump _ _ _
             | exact shifts_none _ _
             | exact shifts_of_top (shifts_push _ _) rfl
             | refine shifts_bind_state (fun _ _ => pop_shift) (fun _ _ => ?_)
             | refine shifts_bind_state (fun _ _ => READ_BYTE_shift) (fun _ _ => ?_)
             | refine shifts_bind_state (fun _ _ => READ_SHORT_shift) (fun _ _ => ?_)
             | refine shifts_bind_state (fun _ _ => READ_CONSTANT_shift) (fun _ _ => ?_)
             | refine shifts_bind_pure (fun _ => ?_)
             | dsimp only
             | split)
      | (refine shifts_cast ((-1) + 1) ?hs (by simp [stack_effect]) vm' (ofOption_next h)
         case hs =>
           repeat' first
             | exact shifts_push _ _
             | exact shifts_some _
             | exact shifts_jump _ _ _
             | exact shifts_none _ _
             | exact shifts_of_top (shifts_push _ _) rfl
             | refine shifts_bind_state (fun _ _ => pop_shift) (fun _ _ => ?_)
             | refine shifts_bind_state (fun _ _ => READ_BYTE_shift) (fun _ _ => ?_)
             | refine shifts_bind_state (fun _ _ => READ_SHORT_shift) (fun _ _ => ?_)
             | refine shifts_bind_state (fun _ _ => READ_CONSTANT_shift) (fun _ _ => ?_)
             | refine shifts_bind_pure (fun _ => ?_)
             | dsimp only
             | split)
      | (refine shifts_cast ((-1) + 0) ?hs (by simp [stack_effect]) vm' (ofOption_next h)
         case hs =>
           repeat' first
             | exact shifts_push _ _
             | exact shifts_some _
             | exact shifts_jump _ _ _
             | exact shifts_none _ _
             | exact shifts_of_top (shifts_push _ _) rfl
             | refine shifts_bind_state (fun _ _ => pop_shift) (fun _ _ => ?_)
             | refine shifts_bind_state (fun _ _ => READ_BYTE_shift) (fun _ _ => ?_)
             | refine shifts_bind_state (fun _ _ => READ_SHORT_shift) (fun _ _ => ?_)
             | refine shifts_bind_state (fun _ _ => READ_CONSTANT_shift) (fun _ _ => ?_)
             | refine shifts_bind_pure (fun _ => ?_)
             | dsimp only
             | split)
      | (refine shifts_cast (0 + 0) ?hs (by simp [stack_effect]) vm' (ofOption_next h)
         case hs =>
           repeat' first
             | exact shifts_push _ _
             | exact shifts_some _
             | exact shifts_jump _ _ _
             | exact shifts_none _ _
             | exact shifts_of_top (shifts_push _ _) rfl
             | refine shifts_bind_state (fun _ _ => pop_shift) (fun _ _ => ?_)
             | refine shifts_bind_state (fun _ _ => READ_BYTE_shift) (fun _ _ => ?_)
             | refine shifts_bind_state (fun _ _ => READ_SHORT_shift) (fun _ _ => ?_)
             | refine shifts_bind_state (fun _ _ => READ_CONSTANT_shift) (fun _ _ => ?_)
             | refine shifts_bind_pure (fun _ => ?_)
             | dsimp only
             | split)
      | (refine shifts_cast (0 + ((-1) + 0)) ?hs (by simp [stack_effect]) vm' (ofOption_next h)
         case hs =>
           repeat' first
             | exact shifts_push _ _
             | exact shifts_some _
             | exact shifts_jump _ _ _
             | exact shifts_none _ _
             | exact shifts_of_top (shifts_push _ _) rfl
             | refine shifts_bind_state (fun _ _ => pop_shift) (fun _ _ => ?_)
             | refine shifts_bind_state (fun _ _ => READ_BYTE_shift) (fun _ _ => ?_)
             | refine shifts_bind_state (fun _ _ => READ_SHORT_shift) (fun _ _ => ?_)
             | refine shifts_bind_state (fun _ _ => READ_CONSTANT_shift) (fun _ _ => ?_)
             | refine shifts_bind_pure (fun _ => ?_)
             | dsimp only
             | split)
  · obtain ⟨frame', byte', hframe', hbyte', hret, rfl⟩ := dispatch_done_ok x fi vm vm' h
    rw [hframe] at hframe'
    cases hframe'
    rw [hbyte] at hbyte'
    cases hbyte'
    rw [hop] at hret
    cases hret
    simp [stack_effect]

/-- C17 instantiated: `JUMP_IF_FALSE_ELSE_POP` with the truthy `Bool(true)` on
top of a stack of depth 2 leaves depth 1. -/
theorem step_changes_depth_by_stack_effect_witness :
    (({ sample_vm (sample_function [OpCode.OP_JUMP_IF_FALSE_ELSE_POP.toByte, 0, 5] []) 3
          [.number (.finite 4), .bool true] with stack_top := 1 } : VM).stack_top : Int) =
      (sample_vm (sample_function [OpCode.OP_JUMP_IF_FALSE_ELSE_POP.toByte, 0, 5] []) 0
          [.number (.finite 4), .bool true]).stack_top +
        stack_effect .OP_JUMP_IF_FALSE_ELSE_POP
          (((peek 0 (sample_vm
              (sample_function [OpCode.OP_JUMP_IF_FALSE_ELSE_POP.toByte, 0, 5] []) 0
              [.number (.finite 4), .bool true])).map is_falsey).getD false) :=
  step_changes_depth_by_stack_effect sample_host 0
    (sample_vm (sample_function [OpCode.OP_JUMP_IF_FALSE_ELSE_POP.toByte, 0, 5] []) 0
      [.number (.finite 4), .bool true])
    { sample_vm (sample_function [OpCode.OP_JUMP_IF_FALSE_ELSE_POP.toByte, 0, 5] []) 3
        [.number (.finite 4), .bool true] with stack_top := 1 }
    (sample_frame (sample_function [OpCode.OP_JUMP_IF_FALSE_ELSE_POP.toByte, 0, 5] []) 0)
    OpCode.OP_JUMP_IF_FALSE_ELSE_POP.toByte .OP_JUMP_IF_FALSE_ELSE_POP
    (by rfl) (by decide) (by decide) (Or.inl (by decide))

/-! ## Frames and termination -/

theorem bump_zero (fi : Nat) (frames : List CallFrame) : bump fi 0 frames = frames := by
  unfold bump
  split
  · rename_i f hf
    have hlt := lt_length_of_getElem? hf
    apply List.ext_getElem?
    intro j
    rw [List.getElem?_set]
    split
    · rename_i hj
      subst hj
      simp [hlt, hf]
    · rfl
  · rfl

theorem bump_bump (fi m n : Nat) (frames : List CallFrame) :
    bump fi m (bump fi n frames) = bump fi (n + m) frames := by
  unfold bump
  cases hf : frames[fi]? with
  | none => simp [hf]
  | some f =>
    have hlt := lt_length_of_getElem? hf
    simp [hlt, Nat.add_assoc]

theorem getElem?_bump (fi n j : Nat) (frames : List CallFrame) :
    (bump fi n frames)[j]? =
      if j = fi then (frames[fi]?).map (fun f => { f with ip := f.ip + n }) else frames[j]? := by
  unfold bump
  cases hf : frames[fi]? with
  | none =>
    by_cases hj : j = fi
    · subst hj
      simp [hf]
    · simp [hj]
  | some f =>
    have hlt := lt_length_of_getElem? hf
    by_cases hj : j = fi
    · subst hj
      simp [hlt]
    · have hj' : ¬ fi = j := fun h => hj h.symm
      simp [List.getElem?_set, hj, hj']

theorem moves_none (fi : Nat) (vm : VM) : Moves fi none vm := by
  intro r h; cases h

theorem moves_some (fi : Nat) (vm : VM) : Moves fi (some vm) vm := by
  intro r h; cases h; exact ⟨0, (bump_zero fi _).symm⟩

theorem moves_push (fi : Nat) (v : Value) (vm : VM) : Moves fi (push v vm) vm := by
  intro r h
  unfold push at h
  split at h
  · cases h; exact ⟨0, (bump_zero fi _).symm⟩
  · cases h

theorem moves_jump (fi offset : Nat) (vm : VM) : Moves fi (jump fi offset vm) vm := by
  intro r h
  unfold jump at h
  split at h
  · cases h
  · rename_i f hf
    cases h
    exact ⟨offset, by simp [bump, hf]⟩

theorem pop_frames {vm r : VM} {v : Value} (h : pop vm = some (v, r)) : r.frames = vm.frames := by
  unfold pop at h
  split at h
  · cases h
  · split at h
    · cases h
    · cases h; rfl

theorem pop_moves (fi : Nat) {vm r : VM} {v : Value} (h : pop vm = some (v, r)) :
    ∃ n, r.frames = bump fi n vm.frames :=
  ⟨0, by rw [pop_frames h, bump_zero]⟩

theorem READ_BYTE_moves {fi : Nat} {vm r : VM} {b : Fin 256}
    (h : READ_BYTE fi vm = some (b, r)) : ∃ n, r.frames = bump fi n vm.frames := by
  obtain ⟨frame, hf, -, rfl⟩ := READ_BYTE_some h
  exact ⟨1, by simp [bump, hf]⟩

theorem READ_SHORT_moves {fi : Nat} {vm r : VM} {k : Nat}
    (h : READ_SHORT fi vm = some (k, r)) : ∃ n, r.frames = bump fi n vm.frames := by
  obtain ⟨frame, hf, rfl⟩ := READ_SHORT_some h
  exact ⟨2, by simp [bump, hf]⟩

theorem READ_CONSTANT_moves {fi : Nat} {vm r : VM} {v : Value}
    (h : READ_CONSTANT fi vm = some (v, r)) : ∃ n, r.frames = bump fi n vm.frames := by
  unfold READ_CONSTANT at h
  split at h
  · cases h
  · rename_i index vm1 hread
    split at h
    · cases h
    · split at h
      · cases h
      · cases h
        exact READ_BYTE_moves hread

theorem moves_bind_state {α : Type} {fi : Nat} {o : Option (α × VM)} {f : α × VM → Option VM}
    {vm : VM} (h1 : ∀ a r, o = some (a, r) → ∃ n, r.frames = bump fi n vm.frames)
    (h2 : ∀ a r, Moves fi (f (a, r)) r) : Moves fi (o.bind f) vm := by
  intro r h
  cases ho : o with
  | none => rw [ho] at h; cases h
  | some p =>
    rw [ho] at h
    obtain ⟨n, hn⟩ := h1 p.1 p.2 ho
    obtain ⟨m, hm⟩ := h2 p.1 p.2 r h
    exact ⟨n + m, by rw [hm, hn, bump_bump]⟩

theorem moves_bind_pure {α : Type} {fi : Nat} {o : Option α} {f : α → Option VM} {vm : VM}
    (h2 : ∀ a, Moves fi (f a) vm) : Moves fi (o.bind f) vm := by
  intro r h
  cases ho : o with
  | none => rw [ho] at h; cases h
  | some a => rw [ho] at h; exact h2 a r h

theorem moves_of_frames {fi : Nat} {o : Option VM} {vm vm1 : VM} (h : Moves fi o vm1)
    (hf : vm1.frames = vm.frames) : Moves fi o vm := by
  intro r hr
  obtain ⟨n, hn⟩ := h r hr
  exact ⟨n, by rw [hn, hf]⟩

theorem BINARY_OP_next_moves {α : Type} (fi : Nat) (value_type : α → Value)
    (op : Int → Int → Option α) (vm vm' : VM) (h : BINARY_OP value_type op vm = .next vm') :
    ∃ n, vm'.frames = bump fi n vm.frames := by
  unfold BINARY_OP at h
  split at h
  · cases h
  · split at h
    · unfold fatal at h; split at h <;> cases h
    · split at h
      · cases h
      · split at h
        · unfold fatal at h; split at h <;> cases h
        · refine (?_ : Moves fi _ vm) vm' (ofOption_next h)
          refine moves_bind_state (fun _ _ => pop_moves fi) (fun _ _ => ?_)
          refine moves_bind_pure (fun _ => ?_)
          refine moves_bind_state (fun _ _ => pop_moves fi) (fun _ _ => ?_)
          refine moves_bind_pure (fun _ => ?_)
          refine moves_bind_pure (fun _ => ?_)
          exact moves_push _ _ _

theorem dispatch_next_frames (x : Host) (fi : Nat) (vm vm' : VM)
    (h : dispatch x fi vm = .next vm') : ∃ n, vm'.frames = bump fi (n + 1) vm.frames := by
  unfold dispatch at h
  split at h
  · cases h
  · rename_i instruction vm1 hread
    obtain ⟨frame, hf, -, hvm1⟩ := READ_BYTE_some hread
    have h1 : vm1.frames = bump fi 1 vm.frames := by
      rw [hvm1]; simp [bump, hf]
    suffices hs : ∃ n, vm'.frames = bump fi n vm1.frames by
      obtain ⟨n, hn⟩ := hs
      exact ⟨n, by rw [hn, h1, bump_bump, Nat.add_comm]⟩
    clear hvm1 h1
    split at h
    · cases h; exact ⟨0, (bump_zero fi _).symm⟩
    all_goals first
      | exact BINARY_OP_next_moves fi _ _ _ _ h
      | cases h
      | (refine (?_ : Moves fi _ vm1) vm' (ofOption_next h)
         repeat' first
           | exact moves_push _ _ _
           | exact moves_some _ _
           | exact moves_jump _ _ _
           | exact moves_none _ _
           | exact moves_of_frames (moves_push _ _ _) rfl
           | refine moves_bind_state (fun _ _ => pop_moves fi) (fun _ _ => ?_)
           | refine moves_bind_state (fun _ _ => READ_BYTE_moves) (fun _ _ => ?_)
           | refine moves_bind_state (fun _ _ => READ_SHORT_moves) (fun _ _ => ?_)
           | refine moves_bind_state (fun _ _ => READ_CONSTANT_moves) (fun _ _ => ?_)
           | refine moves_bind_pure (fun _ => ?_)
           | dsimp only
           | split)
      | (split at h
         · cases h
         · split at h
           · unfold fatal at h
             split at h <;> cases h
           · refine (?_ : Moves fi _ vm1) vm' (ofOption_next h)
             refine moves_bind_state (fun _ _ => pop_moves fi) (fun _ _ => ?_)
             refine moves_bind_pure (fun _ => ?_)
             exact moves_push _ _ _)

theorem steps_frames (x : Host) (fi : Nat) (k : Nat) (vm t : VM)
    (h : steps x fi k vm = some t) : ∃ n, t.frames = bump fi (n + k) vm.frames := by
  induction k generalizing vm with
  | zero =>
    cases h
    exact ⟨0, (bump_zero fi _).symm⟩
  | succ k ih =>
    unfold steps at h
    split at h
    · rename_i vm1 hd
      obtain ⟨m, hm⟩ := dispatch_next_frames x fi vm vm1 hd
      obtain ⟨n, hn⟩ := ih vm1 h
      refine ⟨m + n, ?_⟩
      rw [hn, hm, bump_bump]
      congr 1
      omega
    · cases h

theorem dispatch_fetches (x : Host) (fi : Nat) (vm : VM) (h : dispatch x fi vm ≠ .undefined) :
    ∃ frame byte, vm.frames[fi]? = some frame ∧
      frame.function.chunk.code[frame.ip]? = some byte := by
  cases hread : READ_BYTE fi vm with
  | none =>
    exfalso
    apply h
    unfold dispatch
    rw [hread]
  | some p =>
    obtain ⟨byte, vm1⟩ := p
    obtain ⟨frame, hf, hb, -⟩ := READ_BYTE_some hread
    exact ⟨frame, byte, hf, hb⟩

theorem run_loop_not_running (x : Host) (fi : Nat) (fuel : Nat) (vm : VM) (frame : CallFrame)
    (hframe : vm.frames[fi]? = some frame)
    (hfuel : frame.function.chunk.code.length - frame.ip < fuel) :
    run_loop x fi fuel vm ≠ .running := by
  induction fuel generalizing vm frame with
  | zero => omega
  | succ fuel ih =>
    unfold run_loop
    cases hd : dispatch x fi vm with
    | undefined => simp
    | done r vm' => simp
    | next vm' =>
      simp only
      obtain ⟨frame0, byte, hf0, hb0⟩ := dispatch_fetches x fi vm (by rw [hd]; simp)
      rw [hframe] at hf0
      cases hf0
      have hlen := lt_length_of_getElem? hb0
      obtain ⟨n, hn⟩ := dispatch_next_frames x fi vm vm' hd
      have hf' : vm'.frames[fi]? = some { frame with ip := frame.ip + (n + 1) } := by
        rw [hn, getElem?_bump, if_pos rfl, hframe]
        rfl
      exact ih vm' _ hf' (by simp only; omega)

/-- C18: every step that ends in `break` moves the instruction pointer of the
executing frame on by at least one and leaves its function unchanged.  Hence,
starting with the pointer at `ip` in code of length `n`: if `k` such steps have
been taken and a further instruction can still be fetched, then `ip + k < n`
(at most `n` instructions are executed); and the loop has ended (by returning,
or by a step with no defined behaviour, such as a fetch outside the code) within
any number of iterations greater than `n - ip`.  The same holds for `run`. -/
theorem dispatch_loop_terminates (x : Host) (fi : Nat) (vm : VM) (frame : CallFrame)
    (hframe : vm.frames[fi]? = some frame) :
    (∀ vm', dispatch x fi vm = .next vm' →
      ∃ n, vm'.frames[fi]? = some { frame with ip := frame.ip + (n + 1) }) ∧
    (∀ k t, steps x fi k vm = some t → dispatch x fi t ≠ .undefined →
      frame.ip + k < frame.function.chunk.code.length) ∧
    (∀ fuel, frame.function.chunk.code.length - frame.ip < fuel →
      run_loop x fi fuel vm ≠ .running) ∧
    (vm.frame_count = fi + 1 →
      ∀ fuel, frame.function.chunk.code.length - frame.ip < fuel →
        run x fuel vm ≠ .running) := by
  refine ⟨?_, ?_, fun fuel hfuel => run_loop_not_running x fi fuel vm frame hframe hfuel,
    fun hfc fuel hfuel => ?_⟩
  rotate_right
  · unfold run
    rw [hfc]
    exact run_loop_not_running x fi fuel vm frame hframe hfuel
  · intro vm' hd
    obtain ⟨n, hn⟩ := dispatch_next_frames x fi vm vm' hd
    refine ⟨n, ?_⟩
    rw [hn, getElem?_bump, if_pos rfl, hframe]
    rfl
  · intro k t hs hd
    obtain ⟨n, hn⟩ := steps_frames x fi k vm t hs
    obtain ⟨frame_t, byte, hft, hbt⟩ := dispatch_fetches x fi t hd
    rw [hn, getElem?_bump, if_pos rfl, hframe] at hft
    cases hft
    have := lt_length_of_getElem? hbt
    simp only at this
    omega

/-- C18 instantiated: the two-byte program `NIL; NEGATE`. -/
theorem dispatch_loop_terminates_witness :
    (∀ vm', dispatch sample_host 0 sample_negate_nil = .next vm' →
      ∃ n, vm'.frames[0]? = some
        { sample_frame (sample_function [OpCode.OP_NIL.toByte, OpCode.OP_NEGATE.toByte] []) 0
          with ip := 0 + (n + 1) }) ∧
    (∀ k t, steps sample_host 0 k sample_negate_nil = some t →
      dispatch sample_host 0 t ≠ .undefined →
      0 + k < [OpCode.OP_NIL.toByte, OpCode.OP_NEGATE.toByte].length) ∧
    (∀ fuel, [OpCode.OP_NIL.toByte, OpCode.OP_NEGATE.toByte].length - 0 < fuel →
      run_loop sample_host 0 fuel sample_negate_nil ≠ .running) ∧
    (sample_negate_nil.frame_count = 0 + 1 →
      ∀ fuel, [OpCode.OP_NIL.toByte, OpCode.OP_NEGATE.toByte].length - 0 < fuel →
        run sample_host fuel sample_negate_nil ≠ .running) :=
  dispatch_loop_terminates sample_host 0 sample_negate_nil
    (sample_frame (sample_function [OpCode.OP_NIL.toByte, OpCode.OP_NEGATE.toByte] []) 0)
    (by rfl)

theorem dispatch_done_result (x : Host) (fi : Nat) (vm vm' : VM) (r : InterpretResult)
    (h : dispatch x fi vm = .done r vm') :
    r = .INTERPRET_OK ∨ r = .INTERPRET_RUNTIME_ERROR := by
  unfold dispatch at h
  split at h
  · cases h
  · split at h
    · cases h
    all_goals first
      | exact absurd h (ofOption_ne_done _ _ _)
      | exact Or.inr (BINARY_OP_done _ _ _ _ _ h).1
      | (cases h
         exact Or.inl rfl)
      | (split at h
         · cases h
         · split at h
           · exact Or.inr ((fatal_eq_done _ _ _ _).mp h).1
           · exact absurd h (ofOption_ne_done _ _ _))

theorem dispatch_done_frames (x : Host) (fi : Nat) (vm vm' : VM) (r : InterpretResult)
    (h : dispatch x fi vm = .done r vm') : vm'.frames = bump fi 1 vm.frames := by
  rcases dispatch_done_result x fi vm vm' r h with hr | hr
  · subst hr
    obtain ⟨frame, byte, hf, -, -, rfl⟩ := dispatch_done_ok x fi vm vm' h
    simp [bump, hf]
  · subst hr
    obtain ⟨frame, byte, format, hf, -, hre⟩ := dispatch_done_error x fi vm vm' h
    obtain ⟨fc, frame', i, line, -, -, -, -, rfl⟩ := runtime_error_some _ _ _ hre
    simp [bump, hf, reset_stack]

theorem slots_bump (fi n N : Nat) (frames : List CallFrame) :
    ((bump fi n frames)[N]?).map CallFrame.slots = (frames[N]?).map CallFrame.slots := by
  rw [getElem?_bump]
  split
  · rename_i hN
    subst hN
    cases frames[N]? <;> rfl
  · rfl

theorem length_bump (fi n : Nat) (frames : List CallFrame) :
    (bump fi n frames).length = frames.length := by
  unfold bump
  split <;> simp

theorem interpret_compiled_returned (x : Host) (fuel : Nat) (source : String) (vm vm' : VM)
    (r : InterpretResult) (ref : ObjRef) (function : ObjFunction)
    (hc : (x.compile source vm.objects vm.strings vm.err).function = some (ref, function))
    (h : interpret x fuel source vm = .returned r vm') :
    vm.stack_top < vm.stack.length ∧ vm.frame_count < vm.frames.length ∧
      run_loop x vm.frame_count fuel
        (entry (x.compile source vm.objects vm.strings vm.err) ref function vm) =
          .returned r vm' := by
  by_cases hroom : vm.stack_top < vm.stack.length
  · by_cases hframes : vm.frame_count < vm.frames.length
    · rw [interpret_eq_run_loop x fuel source vm ref function hc hroom hframes] at h
      exact ⟨hroom, hframes, h⟩
    · unfold interpret at h
      simp [hc, push, hroom, hframes] at h
  · unfold interpret at h
    simp [hc, push, hroom] at h

theorem interpret_based (x : Host) (fuel : Nat) (source : String) (vm vm' : VM)
    (r : InterpretResult) (hinv : based_at_zero vm)
    (h : interpret x fuel source vm = .returned r vm') : based_at_zero vm' := by
  cases hc : (x.compile source vm.objects vm.strings vm.err).function with
  | none =>
    unfold interpret at h
    simp only [hc] at h
    cases h
    exact hinv
  | some p =>
    obtain ⟨ref, function⟩ := p
    obtain ⟨-, hframes, hrun⟩ := interpret_compiled_returned x fuel source vm vm' r ref function hc h
    obtain ⟨k, t, hs, hd⟩ := run_loop_returned x _ fuel _ vm' _ hrun
    obtain ⟨n, hn⟩ := steps_frames x _ k _ t hs
    have hc := steps_core x _ k _ t hs
    simp only [core, Prod.mk.injEq] at hc
    have hfr := dispatch_done_frames x _ t vm' r hd
    rcases dispatch_done_result x _ t vm' r hd with hr | hr
    · subst hr
      obtain ⟨frame, byte, -, -, -, hvm'⟩ := dispatch_done_ok x _ t vm' hd
      have hfc : vm'.frame_count = vm.frame_count + 1 := by
        rw [hvm']
        exact hc.1
      intro N f hN hf
      rw [hfr, hn, bump_bump] at hf
      have hs' := slots_bump vm.frame_count (n + k + 1) N
        (entry (x.compile source vm.objects vm.strings vm.err) ref function vm).frames
      rw [hf] at hs'
      simp only [Option.map_some', entry] at hs'
      by_cases hNfc : N = vm.frame_count
      · subst hNfc
        simp [hframes] at hs'
        exact hs'
      · have hne : ¬ vm.frame_count = N := fun e => hNfc e.symm
        rw [List.getElem?_set, if_neg hne] at hs'
        cases hg : vm.frames[N]? with
        | none => rw [hg] at hs'; cases hs'
        | some g =>
          rw [hg] at hs'
          simp only [Option.map_some', Option.some.injEq] at hs'
          rw [hs']
          exact hinv N g (by omega) hg
    · subst hr
      obtain ⟨frame, byte, format, -, -, hre⟩ := dispatch_done_error x _ t vm' hd
      obtain ⟨fc, frame', i, line, -, -, -, -, rfl⟩ := runtime_error_some _ _ _ hre
      intro N f hN
      simp [reset_stack] at hN

theorem reachable_based (x : Host) (vm : VM) (h : Reachable x vm) : based_at_zero vm := by
  induction h with
  | init vm0 =>
    intro N f hN
    simp [init_vm, reset_stack] at hN
  | call vm vm' fuel source result _ hi ih => exact interpret_based x fuel source vm vm' result ih hi

/-- C15: in every machine reached from `init_vm` by calls of `interpret`, the
base slot of each frame in use is at most the base slot of the frame above it;
and a dispatch step, from any machine, leaves the length of the frame array and
the base slot of every frame as they were. -/
theorem frame_bases_ordered (x : Host) (vm : VM) (h : Reachable x vm) :
    (∀ N f g, N + 1 < vm.frame_count → vm.frames[N]? = some f → vm.frames[N + 1]? = some g →
      f.slots ≤ g.slots) ∧
    (∀ fi vm1 vm2 r, dispatch x fi vm1 = .next vm2 ∨ dispatch x fi vm1 = .done r vm2 →
      vm2.frames.length = vm1.frames.length ∧
      ∀ N : Nat, (vm2.frames[N]?).map CallFrame.slots = (vm1.frames[N]?).map CallFrame.slots) := by
  constructor
  · intro N f g hN hf hg
    rw [reachable_based x vm h N f (by omega) hf, reachable_based x vm h (N + 1) g hN hg]
  · intro fi vm1 vm2 r hd
    rcases hd with hd | hd
    · obtain ⟨n, hn⟩ := dispatch_next_frames x fi vm1 vm2 hd
      rw [hn]
      exact ⟨length_bump _ _ _, fun N => slots_bump _ _ _ _⟩
    · rw [dispatch_done_frames x fi vm1 vm2 r hd]
      exact ⟨length_bump _ _ _, fun N => slots_bump _ _ _ _⟩

/-- C15 instantiated: the machine after two successful calls of `interpret`, with
two frames in use. -/
theorem frame_bases_ordered_witness :
    (∀ N f g, N + 1 < sample_done_twice.frame_count → sample_done_twice.frames[N]? = some f →
      sample_done_twice.frames[N + 1]? = some g → f.slots ≤ g.slots) ∧
    (∀ fi vm1 vm2 r,
      dispatch sample_compiler fi vm1 = .next vm2 ∨ dispatch sample_compiler fi vm1 = .done r vm2 →
      vm2.frames.length = vm1.frames.length ∧
      ∀ N : Nat, (vm2.frames[N]?).map CallFrame.slots = (vm1.frames[N]?).map CallFrame.slots) :=
  frame_bases_ordered sample_compiler sample_done_twice
    (Reachable.call sample_done_end sample_done_twice 5 "done" .INTERPRET_OK
      (Reachable.call sample_fresh sample_done_end 5 "done" .INTERPRET_OK
        (Reachable.init _) (by decide))
      (by decide))

/-! ## Calls that cannot start, calls that fail -/

theorem interpret_no_room (x : Host) (fuel : Nat) (source : String) (vm : VM)
    (ref : ObjRef) (function : ObjFunction)
    (hc : (x.compile source vm.objects vm.strings vm.err).function = some (ref, function))
    (h : ¬ vm.stack_top < vm.stack.length) : interpret x fuel source vm = .undefined := by
  unfold interpret
  simp [hc, push, h]

theorem interpret_no_frame (x : Host) (fuel : Nat) (source : String) (vm : VM)
    (ref : ObjRef) (function : ObjFunction)
    (hc : (x.compile source vm.objects vm.strings vm.err).function = some (ref, function))
    (hroom : vm.stack_top < vm.stack.length)
    (h : ¬ vm.frame_count < vm.frames.length) : interpret x fuel source vm = .undefined := by
  unfold interpret
  simp [hc, push, hroom, h]

theorem interpret_RuntimeError_reset (x : Host) (fuel : Nat) (source : String) (vm vm' : VM)
    (h : interpret x fuel source vm = .returned .INTERPRET_RUNTIME_ERROR vm') :
    vm'.stack_top = 0 ∧ vm'.frame_count = 0 := by
  obtain ⟨ref, function, -, -, -, hrun⟩ := interpret_returned x fuel source vm vm' _ h (by decide)
  obtain ⟨n, t, -, hd⟩ := run_loop_returned x _ fuel _ vm' _ hrun
  obtain ⟨frame, byte, format, -, -, hre⟩ := dispatch_done_error x _ t vm' hd
  obtain ⟨fc, frame', i, line, -, -, -, -, rfl⟩ := runtime_error_some _ _ _ hre
  exact ⟨rfl, rfl⟩

/-! ## Variable reads -/

theorem steps_entry_frame (x : Host) (c : Compiled) (ref : ObjRef) (function : ObjFunction)
    (vm0 : VM) (k : Nat) (vm : VM) (frame : CallFrame)
    (hframes : vm0.frame_count < vm0.frames.length)
    (hsteps : steps x vm0.frame_count k (entry c ref function vm0) = some vm)
    (hframe : vm.frames[vm0.frame_count]? = some frame) :
    frame.slots = 0 ∧ frame.function = function := by
  obtain ⟨n, hn⟩ := steps_frames x _ k _ vm hsteps
  rw [hn, getElem?_bump, if_pos rfl] at hframe
  simp only [entry, List.getElem?_set_self hframes, Option.map_some', Option.some.injEq] at hframe
  subst hframe
  exact ⟨rfl, rfl⟩

/-- C11: in every machine `vm` that a run started by `interpret` is in (the
machine in which `interpret` enters `run`, on any machine `vm0`, followed by any
number `k` of steps), a step at `GET_VARIABLE` with operand byte `s`, in the
frame the run executes, whose base slot is `frame.slots`, pushes a copy of the
value `v` at stack position `frame.slots + s`: the cells below the cursor are
unchanged, `v` is on top of them, and the instruction pointer has moved on by
two. -/
theorem GET_VARIABLE_reads_frame_slot (x : Host) (c : Compiled) (ref : ObjRef)
    (function : ObjFunction) (vm0 : VM) (k : Nat) (vm : VM) (frame : CallFrame)
    (s : Fin 256) (v : Value)
    (hframes : vm0.frame_count < vm0.frames.length)
    (hsteps : steps x vm0.frame_count k (entry c ref function vm0) = some vm)
    (hframe : vm.frames[vm0.frame_count]? = some frame)
    (hop : frame.function.chunk.code[frame.ip]? = some OpCode.OP_GET_VARIABLE.toByte)
    (hs : frame.function.chunk.code[frame.ip + 1]? = some s)
    (hv : vm.stack[frame.slots + s.val]? = some v)
    (hroom : vm.stack_top < vm.stack.length) :
    ∃ vm', dispatch x vm0.frame_count vm = .next vm' ∧ live vm' = live vm ++ [v] ∧
      vm'.frames[vm0.frame_count]? = some { frame with ip := frame.ip + 2 } := by
  obtain ⟨hslots, -⟩ := steps_entry_frame x c ref function vm0 k vm frame hframes hsteps hframe
  rw [hslots, Nat.zero_add] at hv
  exact GET_VARIABLE_step x vm0.frame_count vm frame s v hframe hop hs hv hroom

/-- C11 instantiated: `GET_VARIABLE 1` after `CONSTANT 0` has put `Number(5)` in
slot 1 of the frame. -/
theorem GET_VARIABLE_reads_frame_slot_witness :
    ∃ vm', dispatch sample_host sample_fresh.frame_count sample_variable_vm = .next vm' ∧
      live vm' = live sample_variable_vm ++ [.number (.finite 5)] ∧
      vm'.frames[sample_fresh.frame_count]? =
        some { sample_frame sample_variable_function 2 with ip := 2 + 2 } :=
  GET_VARIABLE_reads_frame_slot sample_host sample_variable_compiled 1 sample_variable_function
    sample_fresh 1 sample_variable_vm (sample_frame sample_variable_function 2)
    1 (.number (.finite 5)) (by decide) (by decide) (by rfl) (by decide) (by decide) (by decide)
    (by decide)

/-! ## Calls after a runtime error -/

theorem IS_NUMBER_rename (ρ : ObjRef → ObjRef) (v : Value) :
    IS_NUMBER (rename ρ v) = IS_NUMBER v := by
  cases v <;> rfl

theorem AS_NUMBER_rename (ρ : ObjRef → ObjRef) (v : Value) :
    AS_NUMBER (rename ρ v) = AS_NUMBER v := by
  cases v <;> rfl

theorem is_falsey_rename (ρ : ObjRef → ObjRef) (v : Value) :
    is_falsey (rename ρ v) = is_falsey v := by
  cases v <;> rfl

theorem optsim_bind {α β : Type} {V : α → β → Prop} {S : VM → VM → Prop}
    {oA : Option (α × VM)} {oF : Option (β × VM)}
    {kA : α × VM → Option VM} {kF : β × VM → Option VM}
    (h1 : OptSimWith V S oA oF)
    (h2 : ∀ a f A F, V a f → S A F → OptSim S (kA (a, A)) (kF (f, F))) :
    OptSim S (oA.bind kA) (oF.bind kF) := by
  cases oA with
  | none =>
    cases oF with
    | none => trivial
    | some q => exact h1.elim
  | some p =>
    cases oF with
    | none => exact h1.elim
    | some q => exact h2 p.1 q.1 p.2 q.2 h1.1 h1.2

theorem optsim_bind_pure {α β : Type} {V : α → β → Prop} {S : VM → VM → Prop}
    {oA : Option α} {oF : Option β} {kA : α → Option VM} {kF : β → Option VM}
    (h1 : (oA = none ∧ oF = none) ∨ ∃ a f, oA = some a ∧ oF = some f ∧ V a f)
    (h2 : ∀ a f, V a f → OptSim S (kA a) (kF f)) :
    OptSim S (oA.bind kA) (oF.bind kF) := by
  rcases h1 with ⟨rfl, rfl⟩ | ⟨a, f, rfl, rfl, hV⟩
  · trivial
  · exact h2 a f hV

theorem optsim_bind_same {α : Type} {S : VM → VM → Prop}
    {o : Option α} {kA kF : α → Option VM}
    (h2 : ∀ a, OptSim S (kA a) (kF a)) :
    OptSim S (o.bind kA) (o.bind kF) := by
  cases o with
  | none => trivial
  | some a => exact h2 a

theorem optsim_ite {S : VM → VM → Prop} {c : Prop} [Decidable c] {a b a' b' : Option VM}
    (h1 : OptSim S a a') (h2 : OptSim S b b') :
    OptSim S (if c then a else b) (if c then a' else b') := by
  split <;> assumption

theorem outsim_ofOption {S E : VM → VM → Prop} {oA oF : Option VM} (h : OptSim S oA oF) :
    OutSim S E (Outcome.ofOption oA) (Outcome.ofOption oF) := by
  cases oA with
  | none =>
    cases oF with
    | none => trivial
    | some q => exact h.elim
  | some p =>
    cases oF with
    | none => exact h.elim
    | some q => exact h

theorem sim_value {ρ : ObjRef → ObjRef} {fi : Nat} {outA outF : String} {A F : VM}
    (h : Sim ρ fi outA outF A F) (i : Nat) (hi : i < A.stack_top) :
    (A.stack[i]? = none ∧ F.stack[i]? = none) ∨
      ∃ a f, A.stack[i]? = some a ∧ F.stack[i]? = some f ∧ f = rename ρ a := by
  have hc := h.cells i hi
  cases hA : A.stack[i]? with
  | none =>
    rw [hA] at hc
    exact Or.inl ⟨rfl, hc⟩
  | some a =>
    rw [hA] at hc
    exact Or.inr ⟨a, rename ρ a, rfl, hc, rfl⟩

theorem peek_sim {ρ : ObjRef → ObjRef} {fi : Nat} {outA outF : String} {A F : VM}
    (h : Sim ρ fi outA outF A F) (d : Nat) :
    peek d F = (peek d A).map (rename ρ) := by
  unfold peek
  rw [h.top]
  split
  · exact h.cells _ (by omega)
  · rfl

theorem push_sim {ρ : ObjRef → ObjRef} {fi : Nat} {outA outF : String} {A F : VM}
    (h : Sim ρ fi outA outF A F) (a f : Value) (hv : f = rename ρ a) :
    OptSim (Sim ρ fi outA outF) (push a A) (push f F) := by
  subst hv
  unfold push
  rw [h.top, h.cap]
  split
  · rename_i hlt
    refine ⟨h.count_A, h.count_F, h.frame, ?_, ?_, ?_, h.out⟩
    · simp only [h.top]
    · simp only [List.length_set, h.cap]
    · intro i hi
      simp only at hi ⊢
      by_cases hit : i = A.stack_top
      · subst hit
        rw [List.getElem?_set_self hlt, List.getElem?_set_self (by rw [h.cap]; exact hlt)]
        rfl
      · rw [List.getElem?_set_ne (fun e => hit e.symm), List.getElem?_set_ne (fun e => hit e.symm)]
        exact h.cells i (by omega)
  · trivial

theorem push_sim_same {ρ : ObjRef → ObjRef} {fi : Nat} {outA outF : String} {A F : VM}
    (h : Sim ρ fi outA outF A F) (v : Value) (hv : rename ρ v = v) :
    OptSim (Sim ρ fi outA outF) (push v A) (push v F) :=
  push_sim h v v hv.symm

theorem pop_sim {ρ : ObjRef → ObjRef} {fi : Nat} {outA outF : String} {A F : VM}
    (h : Sim ρ fi outA outF A F) :
    OptSimWith (fun a f => f = rename ρ a) (Sim ρ fi outA outF) (pop A) (pop F) := by
  unfold pop
  rw [h.top]
  cases htop : A.stack_top with
  | zero => trivial
  | succ n =>
    simp only
    rcases sim_value h n (by omega) with ⟨hA, hF⟩ | ⟨a, f, hA, hF, hv⟩
    · rw [hA, hF]
      trivial
    · rw [hA, hF]
      refine ⟨hv, h.count_A, h.count_F, h.frame, rfl, h.cap, ?_, h.out⟩
      intro i hi
      exact h.cells i (by simp only at hi; omega)

theorem sim_set_frame {ρ : ObjRef → ObjRef} {fi : Nat} {outA outF : String} {A F : VM}
    (h : Sim ρ fi outA outF A F) (frame : CallFrame) (ip : Nat)
    (hA : A.frames[fi]? = some frame) :
    Sim ρ fi outA outF
      { A with frames := A.frames.set fi { frame with ip := ip } }
      { F with frames := F.frames.set fi { rename_frame ρ frame with ip := ip } } := by
  have hF : F.frames[fi]? = some (rename_frame ρ frame) := by rw [h.frame, hA]; rfl
  refine ⟨h.count_A, h.count_F, ?_, h.top, h.cap, h.cells, h.out⟩
  simp only
  rw [List.getElem?_set_self (lt_length_of_getElem? hA),
    List.getElem?_set_self (lt_length_of_getElem? hF)]
  rfl

theorem sim_frame {ρ : ObjRef → ObjRef} {fi : Nat} {outA outF : String} {A F : VM}
    (h : Sim ρ fi outA outF A F) :
    (A.frames[fi]? = none ∧ F.frames[fi]? = none) ∨
      ∃ frame, A.frames[fi]? = some frame ∧ F.frames[fi]? = some (rename_frame ρ frame) := by
  have hf := h.frame
  cases hA : A.frames[fi]? with
  | none =>
    rw [hA] at hf
    exact Or.inl ⟨rfl, hf⟩
  | some frame =>
    rw [hA] at hf
    exact Or.inr ⟨frame, rfl, hf⟩

theorem READ_BYTE_sim {ρ : ObjRef → ObjRef} {fi : Nat} {outA outF : String} {A F : VM}
    (h : Sim ρ fi outA outF A F) :
    OptSimWith Eq (Sim ρ fi outA outF) (READ_BYTE fi A) (READ_BYTE fi F) := by
  unfold READ_BYTE
  rcases sim_frame h with ⟨hA, hF⟩ | ⟨frame, hA, hF⟩
  · rw [hA, hF]
    trivial
  · rw [hA, hF]
    show OptSimWith Eq _
      (match frame.function.chunk.code[frame.ip]? with
        | none => none
        | some byte => some (byte, _))
      (match frame.function.chunk.code[frame.ip]? with
        | none => none
        | some byte => some (byte, _))
    cases frame.function.chunk.code[frame.ip]? with
    | none => trivial
    | some byte => exact ⟨rfl, sim_set_frame h frame _ hA⟩

theorem READ_SHORT_sim {ρ : ObjRef → ObjRef} {fi : Nat} {outA outF : String} {A F : VM}
    (h : Sim ρ fi outA outF A F) :
    OptSimWith Eq (Sim ρ fi outA outF) (READ_SHORT fi A) (READ_SHORT fi F) := by
  unfold READ_SHORT
  rcases sim_frame h with ⟨hA, hF⟩ | ⟨frame, hA, hF⟩
  · rw [hA, hF]
    trivial
  · rw [hA, hF]
    show OptSimWith Eq _
      (match frame.function.chunk.code[frame.ip + 2 - 2]?,
          frame.function.chunk.code[frame.ip + 2 - 1]? with
        | some hi, some lo => some (((hi.val <<< 8) ||| lo.val) % 65536, _)
        | _, _ => none)
      (match frame.function.chunk.code[frame.ip + 2 - 2]?,
          frame.function.chunk.code[frame.ip + 2 - 1]? with
        | some hi, some lo => some (((hi.val <<< 8) ||| lo.val) % 65536, _)
        | _, _ => none)
    cases frame.function.chunk.code[frame.ip + 2 - 2]? with
    | none => trivial
    | some hi =>
      cases frame.function.chunk.code[frame.ip + 2 - 1]? with
      | none => trivial
      | some lo => exact ⟨rfl, sim_set_frame h frame _ hA⟩

theorem jump_sim {ρ : ObjRef → ObjRef} {fi : Nat} {outA outF : String} {A F : VM}
    (h : Sim ρ fi outA outF A F) (offset : Nat) :
    OptSim (Sim ρ fi outA outF) (jump fi offset A) (jump fi offset F) := by
  unfold jump
  rcases sim_frame h with ⟨hA, hF⟩ | ⟨frame, hA, hF⟩
  · rw [hA, hF]
    trivial
  · rw [hA, hF]
    exact sim_set_frame h frame _ hA

theorem READ_CONSTANT_sim {ρ : ObjRef → ObjRef} {fi : Nat} {outA outF : String} {A F : VM}
    (h : Sim ρ fi outA outF A F) :
    OptSimWith (fun a f => f = rename ρ a) (Sim ρ fi outA outF)
      (READ_CONSTANT fi A) (READ_CONSTANT fi F) := by
  unfold READ_CONSTANT
  have hb := READ_BYTE_sim h
  cases hA : READ_BYTE fi A with
  | none =>
    cases hF : READ_BYTE fi F with
    | none => trivial
    | some q => rw [hA, hF] at hb; exact hb.elim
  | some p =>
    cases hF : READ_BYTE fi F with
    | none => rw [hA, hF] at hb; exact hb.elim
    | some q =>
      rw [hA, hF] at hb
      obtain ⟨index, A1⟩ := p
      obtain ⟨index', F1⟩ := q
      obtain ⟨hidx, h1⟩ := hb
      cases hidx
      simp only
      rcases sim_frame h1 with ⟨hA1, hF1⟩ | ⟨frame, hA1, hF1⟩
      · rw [hA1, hF1]
        trivial
      · rw [hA1, hF1]
        simp only [rename_frame, rename_function, List.getElem?_map]
        cases frame.function.chunk.constants[index.val]? with
        | none => trivial
        | some value => exact ⟨rfl, h1⟩

theorem sim_out {ρ : ObjRef → ObjRef} {fi : Nat} {outA outF : String} {A F : VM}
    (h : Sim ρ fi outA outF A F) (s : String) :
    Sim ρ fi outA outF { A with out := A.out ++ s } { F with out := F.out ++ s } := by
  obtain ⟨d, hA, hF⟩ := h.out
  refine ⟨h.count_A, h.count_F, h.frame, h.top, h.cap, h.cells, d ++ s, ?_, ?_⟩
  · simp only [hA, String.append_assoc]
  · simp only [hF, String.append_assoc]

theorem sim_end {ρ : ObjRef → ObjRef} {fi : Nat} {outA outF : String} {A F : VM}
    (h : Sim ρ fi outA outF A F) : SimEnd ρ outA outF A F :=
  ⟨by rw [h.count_A, h.count_F], h.top, h.cells, h.out⟩

theorem fatal_sim {ρ : ObjRef → ObjRef} {fi : Nat} {outA outF : String} {A F : VM}
    (h : Sim ρ fi outA outF A F) (format : String) :
    OutSim (Sim ρ fi outA outF) (SimEnd ρ outA outF) (fatal format A) (fatal format F) := by
  unfold fatal runtime_error
  simp only [h.count_A, h.count_F]
  rcases sim_frame h with ⟨hA, hF⟩ | ⟨frame, hA, hF⟩
  · rw [hA, hF]
    trivial
  · rw [hA, hF]
    simp only [rename_frame, rename_function]
    cases frame.ip with
    | zero => trivial
    | succ i =>
      simp only
      cases frame.function.chunk.lines[i]? with
      | none => trivial
      | some line =>
        exact ⟨rfl, rfl, rfl, fun i hi => absurd hi (Nat.not_lt_zero i), h.out⟩

theorem BINARY_OP_sim {α : Type} {ρ : ObjRef → ObjRef} {fi : Nat} {outA outF : String}
    {A F : VM} (h : Sim ρ fi outA outF A F) (value_type : α → Value)
    (op : Int → Int → Option α) (hvt : ∀ r, rename ρ (value_type r) = value_type r) :
    OutSim (Sim ρ fi outA outF) (SimEnd ρ outA outF)
      (BINARY_OP value_type op A) (BINARY_OP value_type op F) := by
  unfold BINARY_OP
  rw [peek_sim h 0, peek_sim h 1]
  cases peek 0 A with
  | none => trivial
  | some v0 =>
    simp only [Option.map_some', IS_NUMBER_rename]
    split
    · exact fatal_sim h _
    · cases peek 1 A with
      | none => trivial
      | some v1 =>
        simp only [Option.map_some', IS_NUMBER_rename]
        split
        · exact fatal_sim h _
        · refine outsim_ofOption ?_
          refine optsim_bind (pop_sim h) (fun vb vb' A1 F1 hb h1 => ?_)
          subst hb
          simp only [AS_NUMBER_rename]
          refine optsim_bind_same (fun b => ?_)
          refine optsim_bind (pop_sim h1) (fun va va' A2 F2 ha h2 => ?_)
          subst ha
          simp only [AS_NUMBER_rename]
          refine optsim_bind_same (fun a => ?_)
          refine optsim_bind_same (fun r => ?_)
          exact push_sim_same h2 _ (hvt r)

set_option maxRecDepth 100000 in
theorem ofByte_GET_VARIABLE : ∀ b : Fin 256, OpCode.ofByte b = some .OP_GET_VARIABLE →
    b = OpCode.OP_GET_VARIABLE.toByte := by
  decide

theorem peek_sim_cases {ρ : ObjRef → ObjRef} {fi : Nat} {outA outF : String} {A F : VM}
    (h : Sim ρ fi outA outF A F) (d : Nat) :
    (peek d A = none ∧ peek d F = none) ∨
      ∃ a f, peek d A = some a ∧ peek d F = some f ∧ f = rename ρ a := by
  have hp := peek_sim h d
  cases hA : peek d A with
  | none =>
    rw [hA] at hp
    exact Or.inl ⟨rfl, hp⟩
  | some a =>
    rw [hA] at hp
    exact Or.inr ⟨a, rename ρ a, rfl, hp, rfl⟩

theorem reads_live_slot {fi : Nat} {A A1 : VM} {instruction : Fin 256}
    (hr : reads_live fi A = true)
    (hread : READ_BYTE fi A = some (instruction, A1))
    (hop : OpCode.ofByte instruction = some .OP_GET_VARIABLE) :
    ∀ slot A2, READ_BYTE fi A1 = some (slot, A2) → slot.val < A.stack_top ∧
      A2.stack = A.stack ∧ A2.stack_top = A.stack_top := by
  intro slot A2 h2
  obtain ⟨frame, hf, hb, rfl⟩ := READ_BYTE_some hread
  have hlen := lt_length_of_getElem? hf
  obtain ⟨frame1, hf1, hb1, rfl⟩ := READ_BYTE_some h2
  simp only [List.getElem?_set_self hlen, Option.some.injEq] at hf1
  subst hf1
  simp only at hb1
  have hi : instruction = OpCode.OP_GET_VARIABLE.toByte := by
    exact ofByte_GET_VARIABLE instruction hop
  subst hi
  simp only [reads_live, hf, hb, hb1, decide_True, Bool.not_true, Bool.false_or,
    decide_eq_true_eq] at hr
  exact ⟨hr, rfl, rfl⟩

theorem dispatch_sim (x : Host) {ρ : ObjRef → ObjRef} {fi : Nat} {outA outF : String}
    {A F : VM} (h : Sim ρ fi outA outF A F)
    (hprint : ∀ v, x.print_value (rename ρ v) = x.print_value v)
    (hequal : ∀ a b, x.values_equal (rename ρ a) (rename ρ b) = x.values_equal a b)
    (hr : reads_live fi A = true) :
    OutSim (Sim ρ fi outA outF) (SimEnd ρ outA outF) (dispatch x fi A) (dispatch x fi F) := by
  unfold dispatch
  have hb := READ_BYTE_sim h
  cases hA : READ_BYTE fi A with
  | none =>
    cases hF : READ_BYTE fi F with
    | none => trivial
    | some q => rw [hA, hF] at hb; exact hb.elim
  | some p =>
    cases hF : READ_BYTE fi F with
    | none => rw [hA, hF] at hb; exact hb.elim
    | some q =>
      rw [hA, hF] at hb
      obtain ⟨instruction, A1⟩ := p
      obtain ⟨instruction', F1⟩ := q
      obtain ⟨hi, h1⟩ := hb
      cases hi
      simp only
      cases hop : OpCode.ofByte instruction with
      | none => exact h1
      | some op =>
        cases op <;> simp only
        case OP_CONSTANT =>
          refine outsim_ofOption ?_
          refine optsim_bind (READ_CONSTANT_sim h1) (fun a f A2 F2 hv h2 => ?_)
          exact push_sim h2 a f hv
        case OP_NIL => exact outsim_ofOption (push_sim_same h1 _ rfl)
        case OP_TRUE => exact outsim_ofOption (push_sim_same h1 _ rfl)
        case OP_FALSE => exact outsim_ofOption (push_sim_same h1 _ rfl)
        case OP_ADD => exact BINARY_OP_sim h1 _ _ (fun _ => rfl)
        case OP_SUBTRACT => exact BINARY_OP_sim h1 _ _ (fun _ => rfl)
        case OP_MULTIPLY => exact BINARY_OP_sim h1 _ _ (fun _ => rfl)
        case OP_DIVIDE => exact BINARY_OP_sim h1 _ _ (fun _ => rfl)
        case OP_LESS => exact BINARY_OP_sim h1 _ _ (fun _ => rfl)
        case OP_GREATER => exact BINARY_OP_sim h1 _ _ (fun _ => rfl)
        case OP_LESS_EQUAL => exact BINARY_OP_sim h1 _ _ (fun _ => rfl)
        case OP_GREATER_EQUAL => exact BINARY_OP_sim h1 _ _ (fun _ => rfl)
        case OP_EQUAL =>
          refine outsim_ofOption ?_
          refine optsim_bind (pop_sim h1) (fun b b' A2 F2 hb h2 => ?_)
          subst hb
          refine optsim_bind (pop_sim h2) (fun a a' A3 F3 ha h3 => ?_)
          subst ha
          simp only [hequal]
          exact push_sim_same h3 _ rfl
        case OP_NOT_EQUAL =>
          refine outsim_ofOption ?_
          refine optsim_bind (pop_sim h1) (fun b b' A2 F2 hb h2 => ?_)
          subst hb
          refine optsim_bind (pop_sim h2) (fun a a' A3 F3 ha h3 => ?_)
          subst ha
          simp only [hequal]
          exact push_sim_same h3 _ rfl
        case OP_NOT =>
          refine outsim_ofOption ?_
          refine optsim_bind (pop_sim h1) (fun v v' A2 F2 hv h2 => ?_)
          subst hv
          simp only [is_falsey_rename]
          exact push_sim_same h2 _ rfl
        case OP_NEGATE =>
          rw [peek_sim h1 0]
          cases peek 0 A1 with
          | none => trivial
          | some v0 =>
            simp only [Option.map_some', IS_NUMBER_rename]
            split
            · exact fatal_sim h1 _
            · refine outsim_ofOption ?_
              refine optsim_bind (pop_sim h1) (fun v v' A2 F2 hv h2 => ?_)
              subst hv
              simp only [AS_NUMBER_rename]
              refine optsim_bind_same (fun d => ?_)
              exact push_sim_same h2 _ rfl
        case OP_POP =>
          refine outsim_ofOption ?_
          refine optsim_bind (pop_sim h1) (fun v v' A2 F2 hv h2 => ?_)
          exact h2
        case OP_PUSH_DOWN =>
          refine outsim_ofOption ?_
          refine optsim_bind (pop_sim h1) (fun a a' A2 F2 ha h2 => ?_)
          refine optsim_bind (pop_sim h2) (fun v v' A3 F3 hv h3 => ?_)
          exact push_sim h3 a a' ha
        case OP_GET_VARIABLE =>
          refine outsim_ofOption ?_
          have hslot := reads_live_slot hr hA hop
          have hb2 := READ_BYTE_sim h1
          cases hA2 : READ_BYTE fi A1 with
          | none =>
            cases hF2 : READ_BYTE fi F1 with
            | none => trivial
            | some q => rw [hA2, hF2] at hb2; exact hb2.elim
          | some p =>
            cases hF2 : READ_BYTE fi F1 with
            | none => rw [hA2, hF2] at hb2; exact hb2.elim
            | some q =>
              rw [hA2, hF2] at hb2
              obtain ⟨slot, A2⟩ := p
              obtain ⟨slot', F2⟩ := q
              obtain ⟨hs, h2⟩ := hb2
              cases hs
              obtain ⟨hlt, -, htop⟩ := hslot slot A2 hA2
              show OptSim _ ((A2.stack[slot.val]?).bind fun value => push value A2)
                ((F2.stack[slot.val]?).bind fun value => push value F2)
              refine optsim_bind_pure (sim_value h2 slot.val (by rw [htop]; exact hlt))
                (fun a f hv => ?_)
              exact push_sim h2 a f hv
        case OP_PRINT =>
          refine outsim_ofOption ?_
          refine optsim_bind (pop_sim h1) (fun v v' A2 F2 hv h2 => ?_)
          subst hv
          simp only [hprint]
          exact push_sim_same (sim_out (sim_out h2 _) _) _ rfl
        case OP_JUMP =>
          refine outsim_ofOption ?_
          refine optsim_bind (READ_SHORT_sim h1) (fun o o' A2 F2 ho h2 => ?_)
          cases ho
          exact jump_sim h2 _
        case OP_JUMP_IF_FALSE =>
          refine outsim_ofOption ?_
          refine optsim_bind (READ_SHORT_sim h1) (fun o o' A2 F2 ho h2 => ?_)
          cases ho
          refine optsim_bind (pop_sim h2) (fun v v' A3 F3 hv h3 => ?_)
          subst hv
          simp only [is_falsey_rename]
          exact optsim_ite (jump_sim h3 _) h3
        case OP_JUMP_IF_FALSE_ELSE_POP =>
          refine outsim_ofOption ?_
          refine optsim_bind (READ_SHORT_sim h1) (fun o o' A2 F2 ho h2 => ?_)
          cases ho
          refine optsim_bind_pure (peek_sim_cases h2 0) (fun v v' hv => ?_)
          subst hv
          simp only [is_falsey_rename]
          refine optsim_ite (jump_sim h2 _) ?_
          refine optsim_bind (pop_sim h2) (fun v v' A3 F3 hv h3 => ?_)
          exact h3
        case OP_JUMP_IF_TRUE_ELSE_POP =>
          refine outsim_ofOption ?_
          refine optsim_bind (READ_SHORT_sim h1) (fun o o' A2 F2 ho h2 => ?_)
          cases ho
          refine optsim_bind_pure (peek_sim_cases h2 0) (fun v v' hv => ?_)
          subst hv
          simp only [is_falsey_rename]
          refine optsim_ite ?_ (jump_sim h2 _)
          refine optsim_bind (pop_sim h2) (fun v v' A3 F3 hv h3 => ?_)
          exact h3
        case OP_RETURN => exact ⟨rfl, sim_end h1⟩

theorem run_loop_sim (x : Host) {ρ : ObjRef → ObjRef} {fi : Nat} {outA outF : String}
    (hprint : ∀ v, x.print_value (rename ρ v) = x.print_value v)
    (hequal : ∀ a b, x.values_equal (rename ρ a) (rename ρ b) = x.values_equal a b)
    (fuel : Nat) (A F : VM) (h : Sim ρ fi outA outF A F)
    (hr : run_reads_live x fi fuel A = true) :
    RunSim (SimEnd ρ outA outF) (run_loop x fi fuel A) (run_loop x fi fuel F) := by
  induction fuel generalizing A F with
  | zero => trivial
  | succ fuel ih =>
    unfold run_reads_live at hr
    rw [Bool.and_eq_true] at hr
    obtain ⟨hr1, hr2⟩ := hr
    have hd := dispatch_sim x h hprint hequal hr1
    unfold run_loop
    cases hA : dispatch x fi A with
    | undefined =>
      cases hF : dispatch x fi F with
      | undefined => trivial
      | next F1 => rw [hA, hF] at hd; exact hd.elim
      | done rF F1 => rw [hA, hF] at hd; exact hd.elim
    | next A1 =>
      cases hF : dispatch x fi F with
      | undefined => rw [hA, hF] at hd; exact hd.elim
      | next F1 =>
        rw [hA, hF] at hd
        rw [hA] at hr2
        exact ih A1 F1 hd hr2
      | done rF F1 => rw [hA, hF] at hd; exact hd.elim
    | done rA A1 =>
      cases hF : dispatch x fi F with
      | undefined => rw [hA, hF] at hd; exact hd.elim
      | next F1 => rw [hA, hF] at hd; exact hd.elim
      | done rF F1 =>
        rw [hA, hF] at hd
        exact hd

theorem entry_sim (ρ : ObjRef → ObjRef) (cA cF : Compiled) (ref : ObjRef)
    (function : ObjFunction) (A F : VM)
    (hcount : F.frame_count = A.frame_count) (htop : F.stack_top = A.stack_top)
    (hcap : F.stack.length = A.stack.length)
    (hcells : ∀ i : Nat, i < A.stack_top → F.stack[i]? = (A.stack[i]?).map (rename ρ))
    (hroom : A.stack_top < A.stack.length)
    (hframesA : A.frame_count < A.frames.length) (hframesF : F.frame_count < F.frames.length) :
    Sim ρ A.frame_count A.out F.out (entry cA ref function A)
      (entry cF (ρ ref) (rename_function ρ function) F) := by
  refine ⟨rfl, ?_, ?_, ?_, ?_, ?_, "", ?_, ?_⟩
  · simp only [entry, hcount]
  · simp only [entry, hcount]
    rw [List.getElem?_set_self hframesA, List.getElem?_set_self (by rw [← hcount]; exact hframesF)]
    rfl
  · simp only [entry, htop]
  · simp only [entry, List.length_set, hcap]
  · intro i hi
    simp only [entry] at hi ⊢
    rw [htop]
    by_cases hit : i = A.stack_top
    · subst hit
      rw [List.getElem?_set_self hroom, List.getElem?_set_self (by rw [hcap]; exact hroom)]
      rfl
    · rw [List.getElem?_set_ne (fun e => hit e.symm), List.getElem?_set_ne (fun e => hit e.symm)]
      exact hcells i (by omega)
  · simp [entry]
  · simp [entry]

theorem interpret_sim (x : Host) (ρ : ObjRef → ObjRef) (fuel : Nat) (source : String)
    (A F : VM)
    (hprint : ∀ v, x.print_value (rename ρ v) = x.print_value v)
    (hequal : ∀ a b, x.values_equal (rename ρ a) (rename ρ b) = x.values_equal a b)
    (hcount : F.frame_count = A.frame_count) (htop : F.stack_top = A.stack_top)
    (hcap : F.stack.length = A.stack.length) (hframes : F.frames.length = A.frames.length)
    (hcells : ∀ i : Nat, i < A.stack_top → F.stack[i]? = (A.stack[i]?).map (rename ρ))
    (hcompile : (x.compile source F.objects F.strings F.err).function =
      ((x.compile source A.objects A.strings A.err).function).map
        (fun p => (ρ p.1, rename_function ρ p.2)))
    (hreads : interpret_reads_live x fuel source A = true) :
    RunSim (SimEnd ρ A.out F.out) (interpret x fuel source A) (interpret x fuel source F) := by
  cases hcA : (x.compile source A.objects A.strings A.err).function with
  | none =>
    rw [hcA] at hcompile
    unfold interpret
    simp only [hcA, hcompile, Option.map_none']
    exact ⟨rfl, hcount, htop, hcells, "", by simp, by simp⟩
  | some p =>
    obtain ⟨ref, function⟩ := p
    rw [hcA] at hcompile
    simp only [Option.map_some'] at hcompile
    by_cases hroom : A.stack_top < A.stack.length
    · by_cases hfr : A.frame_count < A.frames.length
      · have hroomF : F.stack_top < F.stack.length := by rw [htop, hcap]; exact hroom
        have hfrF : F.frame_count < F.frames.length := by rw [hcount, hframes]; exact hfr
        rw [interpret_eq_run_loop x fuel source A ref function hcA hroom hfr,
          interpret_eq_run_loop x fuel source F _ _ hcompile hroomF hfrF, hcount]
        refine run_loop_sim x hprint hequal fuel _ _
          (entry_sim ρ _ _ ref function A F hcount htop hcap hcells hroom hfr hfrF) ?_
        simp only [interpret_reads_live, hcA] at hreads
        exact hreads
      · have hfrF : ¬ F.frame_count < F.frames.length := by rw [hcount, hframes]; exact hfr
        by_cases hroomF : F.stack_top < F.stack.length
        · rw [interpret_no_frame x fuel source A ref function hcA hroom hfr,
            interpret_no_frame x fuel source F _ _ hcompile hroomF hfrF]
          trivial
        · exact absurd (by rw [htop, hcap]; exact hroom) hroomF
    · have hroomF : ¬ F.stack_top < F.stack.length := by rw [htop, hcap]; exact hroom
      rw [interpret_no_room x fuel source A ref function hcA hroom,
        interpret_no_room x fuel source F _ _ hcompile hroomF]
      trivial

theorem live_of_cells (ρ : ObjRef → ObjRef) (A F : VM) (htop : F.stack_top = A.stack_top)
    (hcells : ∀ i : Nat, i < A.stack_top → F.stack[i]? = (A.stack[i]?).map (rename ρ)) :
    live F = (live A).map (rename ρ) := by
  apply List.ext_getElem?
  intro i
  simp only [live, List.getElem?_map, List.getElem?_take, htop]
  split
  · rename_i hi
    exact hcells i hi
  · rfl

/-- C13: a machine `vm` returned by `interpret` with `RuntimeError` has an empty
operand stack and frame count 0, like a machine `init_vm fresh` that was never
used (whatever its stack cells, frames and streams hold, with the same
capacities).  A further call of `interpret` on `vm` behaves as the same call on
`init_vm fresh`: it has no defined behaviour, is still going after `fuel`
iterations, or returns, exactly when the other does; when it returns, the other
returns the same result, the same text `d` has been added to the output stream,
and the final stacks have the same depth and hold the same values, for every
program that reads no stack cell at or above the cursor.  Here `ρ` translates
the heap addresses of the call on `vm` into those of the call on the fresh
machine (the two heaps differ): the compiler yields the same function up to `ρ`,
and `print_value` and `values_equal` do not depend on which of the two addresses
an object has. -/
theorem interpret_after_RuntimeError_as_fresh (x : Host) (ρ : ObjRef → ObjRef)
    (fuel0 : Nat) (source0 : String) (vm0 vm fresh : VM) (fuel : Nat) (source : String)
    (h : interpret x fuel0 source0 vm0 = .returned .INTERPRET_RUNTIME_ERROR vm)
    (hstack : fresh.stack.length = vm.stack.length)
    (hframes : fresh.frames.length = vm.frames.length)
    (hprint : ∀ v, x.print_value (rename ρ v) = x.print_value v)
    (hequal : ∀ a b, x.values_equal (rename ρ a) (rename ρ b) = x.values_equal a b)
    (hcompile : (x.compile source [] [] fresh.err).function =
      ((x.compile source vm.objects vm.strings vm.err).function).map
        (fun p => (ρ p.1, rename_function ρ p.2)))
    (hreads : interpret_reads_live x fuel source vm = true) :
    live vm = [] ∧ vm.frame_count = 0 ∧
    live (init_vm fresh) = [] ∧ (init_vm fresh).frame_count = 0 ∧
    (interpret x fuel source vm = .undefined ↔
      interpret x fuel source (init_vm fresh) = .undefined) ∧
    (interpret x fuel source vm = .running ↔
      interpret x fuel source (init_vm fresh) = .running) ∧
    (∀ r vm', interpret x fuel source vm = .returned r vm' →
      ∃ fresh' d, interpret x fuel source (init_vm fresh) = .returned r fresh' ∧
        vm'.out = vm.out ++ d ∧ fresh'.out = fresh.out ++ d ∧
        live fresh' = (live vm').map (rename ρ) ∧
        fresh'.stack_top = vm'.stack_top ∧ fresh'.frame_count = vm'.frame_count) := by
  obtain ⟨htop, hfc⟩ := interpret_RuntimeError_reset x fuel0 source0 vm0 vm h
  have hsim := interpret_sim x ρ fuel source vm (init_vm fresh) hprint hequal
    (by simp [init_vm, reset_stack, hfc]) (by simp [init_vm, reset_stack, htop])
    hstack hframes (fun i hi => absurd hi (by rw [htop]; exact Nat.not_lt_zero i))
    hcompile hreads
  refine ⟨by simp [live, htop], hfc, by simp [live, init_vm, reset_stack], rfl, ?_, ?_, ?_⟩
  · cases hA : interpret x fuel source vm <;> cases hF : interpret x fuel source (init_vm fresh) <;>
      rw [hA, hF] at hsim <;> first | exact hsim.elim | simp
  · cases hA : interpret x fuel source vm <;> cases hF : interpret x fuel source (init_vm fresh) <;>
      rw [hA, hF] at hsim <;> first | exact hsim.elim | simp
  · intro r vm' hA
    cases hF : interpret x fuel source (init_vm fresh) with
    | undefined => rw [hA, hF] at hsim; exact hsim.elim
    | running => rw [hA, hF] at hsim; exact hsim.elim
    | returned r' fresh' =>
      rw [hA, hF] at hsim
      obtain ⟨hr, hc, ht, hcells, d, hoA, hoF⟩ := hsim
      subst hr
      exact ⟨fresh', d, rfl, hoA, hoF, live_of_cells ρ vm' fresh' ht hcells, ht, hc⟩

theorem sample_translation_print (v : Value) :
    sample_variables.print_value (rename sample_translation v) =
      sample_variables.print_value v := by
  cases v <;> rfl

theorem sample_translation_equal (a b : Value) :
    sample_variables.values_equal (rename sample_translation a) (rename sample_translation b) =
      sample_variables.values_equal a b := by
  have hinj : ∀ r s : Nat, sample_translation r = sample_translation s ↔ r = s := by
    intro r s
    unfold sample_translation
    split_ifs <;> constructor <;> intro h <;> omega
  cases a <;> cases b <;> simp [sample_variables, sample_compiler, rename, hinj]

/-- C13 instantiated: the program `"self"` after `"fault"` has ended in a runtime
error, against a machine whose cells all hold `Bool(false)`; the function is at
address 2 in the first call and at address 1 in the second. -/
theorem interpret_after_RuntimeError_as_fresh_witness :
    live sample_faulted = [] ∧ sample_faulted.frame_count = 0 ∧
    live (init_vm (sample_fresh_of (.bool false))) = [] ∧
    (init_vm (sample_fresh_of (.bool false))).frame_count = 0 ∧
    (interpret sample_variables 10 "self" sample_faulted = .undefined ↔
      interpret sample_variables 10 "self" (init_vm (sample_fresh_of (.bool false))) =
        .undefined) ∧
    (interpret sample_variables 10 "self" sample_faulted = .running ↔
      interpret sample_variables 10 "self" (init_vm (sample_fresh_of (.bool false))) =
        .running) ∧
    (∀ r vm', interpret sample_variables 10 "self" sample_faulted = .returned r vm' →
      ∃ fresh' d,
        interpret sample_variables 10 "self" (init_vm (sample_fresh_of (.bool false))) =
          .returned r fresh' ∧
        vm'.out = sample_faulted.out ++ d ∧
        fresh'.out = (sample_fresh_of (.bool false)).out ++ d ∧
        live fresh' = (live vm').map (rename sample_translation) ∧
        fresh'.stack_top = vm'.stack_top ∧ fresh'.frame_count = vm'.frame_count) :=
  interpret_after_RuntimeError_as_fresh sample_variables sample_translation 10 "fault"
    sample_fresh sample_faulted (sample_fresh_of (.bool false)) 10 "self"
    (by decide) (by decide) (by decide) sample_translation_print sample_translation_equal
    (by decide) (by decide)

end Bao
